import Mathlib

/-!
# Echo server and stress client: a shallow embedding

The server (`src/server/echo_server.cpp`) is a single-threaded epoll loop.  Its
system calls are modelled by an environment `Env` of outcome streams (one per
kind of call, indexed by the number of calls of that kind made so far) and a
kernel-side state `Sys` holding the call counters, the descriptor tables, the
trace of calls issued and the statistics blocks printed.  Loops that the code
writes as `while (true)` take a fuel argument and return `none` when it runs
out.  Console logging other than the statistics report is not modelled.
-/

namespace Echo

/-! ## Constants -/

/-- One byte of a socket buffer (`char`). -/
abbrev Byte := Fin 256

/-- Linux value of `EAGAIN`. -/
def EAGAIN : Int := 11
/-- Linux value of `EWOULDBLOCK` (the same number as `EAGAIN`). -/
def EWOULDBLOCK : Int := 11
/-- Linux value of `EINTR`. -/
def EINTR : Int := 4
/-- Linux value of `EBADF`. -/
def EBADF : Int := 9

/-- Source constant `BUFFER_SIZE`. -/
def BUFFER_SIZE : Nat := 4096
/-- Source constant `MAX_EVENTS`. -/
def MAX_EVENTS : Nat := 1024
/-- Source constant `DEFAULT_PORT`. -/
def DEFAULT_PORT : Int := 8888
/-- Linux value of `EPOLLIN`. -/
def EPOLLIN : Nat := 1
/-- Linux value of `EPOLLET`. -/
def EPOLLET : Nat := 2147483648
/-- Unsigned 64-bit modulus (`unsigned long long`). -/
def U64 : Nat := 18446744073709551616

/-- The test `errno == EAGAIN || errno == EWOULDBLOCK`. -/
def wouldBlock (errno : Int) : Bool := errno == EAGAIN || errno == EWOULDBLOCK

/-! ## System-call outcomes -/

/-- Outcome of `read`: `ok data` returns `data.length >= 0` and stores `data`
in the buffer; `fail errno` returns `-1`. -/
inductive ReadResult where
  | ok (data : List Byte)
  | fail (errno : Int)
  deriving DecidableEq, Repr

/-- Outcome of `write`: `ok w` returns the count `w`; `fail errno` returns `-1`. -/
inductive WriteResult where
  | ok (w : Nat)
  | fail (errno : Int)
  deriving DecidableEq, Repr

/-- Outcome of `epoll_wait`: `ready fds` returns `nfds = fds.length` with the
ready descriptors in `events[0..nfds)`; `fail errno` returns `-1`. -/
inductive WaitResult where
  | ready (fds : List Int)
  | fail (errno : Int)
  deriving DecidableEq, Repr

/-- A system call issued by the program, with its arguments and its outcome. -/
inductive Call where
  | read (fd : Int) (res : ReadResult)
  | write (fd : Int) (buf : List Byte) (res : WriteResult)
  | epollDel (fd : Int)
  | close (fd : Int)
  | time (t : Int)
  | accept (ret : Int) (errno : Int)
  | fcntlGet (fd : Int) (ret : Int)
  | fcntlSet (fd : Int) (ret : Int)
  | epollAdd (fd : Int) (events : Nat) (ret : Int)
  | socket (ret : Int)
  | setsockopt (fd : Int) (ret : Int)
  | bind (fd : Int) (port : Int) (ret : Int)
  | listen (fd : Int) (ret : Int)
  | epollCreate (ret : Int)
  | epollWait (res : WaitResult)
  deriving DecidableEq, Repr

/-- One block printed by `printStats`: the "Waiting for traffic..." placeholder,
or the rates summary with the six numbers it shows (server uptime, active time,
total messages, total bytes, messages per second, throughput in KB/s).  The
quotients, `double` in the source, are exact rationals here. -/
inductive StatsBlock where
  | waiting
  | rates (uptime active : Int) (total_messages total_bytes : Nat)
      (messages_per_sec throughput_kb : ℚ)
  deriving DecidableEq, Repr

/-- The environment: what each system call returns.  Streams are indexed by the
number of calls of that kind already made; `writes i c` is the outcome of the
`i`-th `write` when it asks for `c` bytes; `accepts i` is the return value and
the `errno` of the `i`-th `accept`; `fcntls` and `ctls` give the return values
of `fcntl` and of `epoll_ctl(EPOLL_CTL_ADD)`. -/
structure Env where
  reads : Nat → ReadResult
  writes : Nat → Nat → WriteResult
  accepts : Nat → Int × Int
  fcntls : Nat → Int
  ctls : Nat → Int
  waits : Nat → WaitResult
  times : Nat → Int
  socket_ret : Int
  setsockopt_ret : Int
  bind_ret : Int
  listen_ret : Int
  epoll_create1_ret : Int

/-- Kernel-side state: call counters, descriptor tables (open, `O_NONBLOCK`,
epoll interest with its event mask), the trace of the calls issued so far
(oldest first) and the statistics blocks printed so far. -/
structure Sys where
  nRead : Nat
  nWrite : Nat
  nAccept : Nat
  nFcntl : Nat
  nCtl : Nat
  nWait : Nat
  nTime : Nat
  isOpen : Int → Bool
  nonblocking : Int → Bool
  registered : Int → Option Nat
  trace : List Call
  out : List StatsBlock

/-- A kernel state with no call made and no descriptor open. -/
def Sys.init : Sys :=
  { nRead := 0, nWrite := 0, nAccept := 0, nFcntl := 0, nCtl := 0, nWait := 0, nTime := 0,
    isOpen := fun _ => false, nonblocking := fun _ => false, registered := fun _ => none,
    trace := [], out := [] }

/-- State after `read(fd, buffer, sizeof(buffer))` returned `r`. -/
def Sys.afterRead (s : Sys) (fd : Int) (r : ReadResult) : Sys :=
  { s with nRead := s.nRead + 1, trace := s.trace ++ [Call.read fd r] }

/-- State after `write(fd, buf, buf.length)` returned `r`. -/
def Sys.afterWrite (s : Sys) (fd : Int) (buf : List Byte) (r : WriteResult) : Sys :=
  { s with nWrite := s.nWrite + 1, trace := s.trace ++ [Call.write fd buf r] }

/-- State after `time(nullptr)` returned `t`. -/
def Sys.afterTime (s : Sys) (t : Int) : Sys :=
  { s with nTime := s.nTime + 1, trace := s.trace ++ [Call.time t] }

/-- State after `epoll_ctl(epoll_fd, EPOLL_CTL_DEL, fd, nullptr)`: `fd` is no
longer in the interest list. -/
def Sys.afterEpollDel (s : Sys) (fd : Int) : Sys :=
  { s with registered := Function.update s.registered fd none,
           trace := s.trace ++ [Call.epollDel fd] }

/-- State after `close(fd)`: the descriptor is closed, which also drops it from
every interest list. -/
def Sys.afterClose (s : Sys) (fd : Int) : Sys :=
  { s with isOpen := Function.update s.isOpen fd false,
           nonblocking := Function.update s.nonblocking fd false,
           registered := Function.update s.registered fd none,
           trace := s.trace ++ [Call.close fd] }

/-- State after `accept` returned `ret` with `errno`: a descriptor other than
`-1` is a new open socket, in blocking mode. -/
def Sys.afterAccept (s : Sys) (ret errno : Int) : Sys :=
  { s with nAccept := s.nAccept + 1,
           isOpen := if ret = -1 then s.isOpen else Function.update s.isOpen ret true,
           nonblocking :=
             if ret = -1 then s.nonblocking else Function.update s.nonblocking ret false,
           trace := s.trace ++ [Call.accept ret errno] }

/-- State after `fcntl(fd, F_GETFL, 0)` returned `ret`. -/
def Sys.afterFcntlGet (s : Sys) (fd ret : Int) : Sys :=
  { s with nFcntl := s.nFcntl + 1, trace := s.trace ++ [Call.fcntlGet fd ret] }

/-- State after `fcntl(fd, F_SETFL, flags | O_NONBLOCK)` returned `ret`: unless
it failed, the descriptor is now non-blocking. -/
def Sys.afterFcntlSet (s : Sys) (fd ret : Int) : Sys :=
  { s with nFcntl := s.nFcntl + 1,
           nonblocking :=
             if ret = -1 then s.nonblocking else Function.update s.nonblocking fd true,
           trace := s.trace ++ [Call.fcntlSet fd ret] }

/-- State after `epoll_ctl(epoll_fd, EPOLL_CTL_ADD, fd, &ev)` with `ev.events =
events` returned `ret`: unless it failed, `fd` is registered with that mask. -/
def Sys.afterEpollAdd (s : Sys) (fd : Int) (events : Nat) (ret : Int) : Sys :=
  { s with nCtl := s.nCtl + 1,
           registered :=
             if ret = -1 then s.registered else Function.update s.registered fd (some events),
           trace := s.trace ++ [Call.epollAdd fd events ret] }

/-- State after `socket(AF_INET, SOCK_STREAM, 0)` returned `ret`. -/
def Sys.afterSocket (s : Sys) (ret : Int) : Sys :=
  { s with isOpen := if ret = -1 then s.isOpen else Function.update s.isOpen ret true,
           trace := s.trace ++ [Call.socket ret] }

/-- State after a call that changes none of the tables modelled here
(`setsockopt`, `bind`, `listen`, `epoll_create1`). -/
def Sys.log (s : Sys) (c : Call) : Sys :=
  { s with trace := s.trace ++ [c] }

/-- State after `epoll_wait` returned `r`. -/
def Sys.afterWait (s : Sys) (r : WaitResult) : Sys :=
  { s with nWait := s.nWait + 1, trace := s.trace ++ [Call.epollWait r] }

/-! ## The server object -/

/-- Data members of `class EchoServer` (the `events` array is not modelled). -/
structure EchoServer where
  listen_fd : Int
  epoll_fd : Int
  port : Int
  total_messages : Nat
  total_bytes : Nat
  start_time : Int
  first_message_time : Int
  has_traffic : Bool
  deriving DecidableEq, Repr

/-- Constructor `EchoServer(int p)`, with `now` the value of `time(nullptr)`. -/
def EchoServer.new (p : Int) (now : Int) : EchoServer :=
  { listen_fd := -1, epoll_fd := -1, port := p, total_messages := 0, total_bytes := 0,
    start_time := now, first_message_time := 0, has_traffic := false }

/-- Method `setNonBlocking`: returns `0`, or `-1` when either `fcntl` fails. -/
def setNonBlocking (env : Env) (fd : Int) (s : Sys) : Int × Sys :=
  let flags := env.fcntls s.nFcntl
  let s1 := s.afterFcntlGet fd flags
  if flags = -1 then (-1, s1)
  else
    let r := env.fcntls s1.nFcntl
    let s2 := s1.afterFcntlSet fd r
    if r = -1 then (-1, s2) else (0, s2)

/-- Method `createListenSocket`: returns `0`, or `-1` after the first failing
step (closing the socket if it was created). -/
def createListenSocket (env : Env) (srv : EchoServer) (s : Sys) : Int × EchoServer × Sys :=
  let srv1 := { srv with listen_fd := env.socket_ret }
  let s1 := s.afterSocket env.socket_ret
  if srv1.listen_fd = -1 then (-1, srv1, s1)
  else
    let s2 := s1.log (Call.setsockopt srv1.listen_fd env.setsockopt_ret)
    if env.setsockopt_ret = -1 then (-1, srv1, s2.afterClose srv1.listen_fd)
    else
      let s3 := s2.log (Call.bind srv1.listen_fd srv1.port env.bind_ret)
      if env.bind_ret = -1 then (-1, srv1, s3.afterClose srv1.listen_fd)
      else
        let s4 := s3.log (Call.listen srv1.listen_fd env.listen_ret)
        if env.listen_ret = -1 then (-1, srv1, s4.afterClose srv1.listen_fd)
        else
          let r := setNonBlocking env srv1.listen_fd s4
          if r.1 = -1 then (-1, srv1, r.2.afterClose srv1.listen_fd)
          else (0, srv1, r.2)

/-- The part of the body of the accept loop that follows a successful
`accept`: make `client_fd` non-blocking and add it to the epoll instance for
`EPOLLIN | EPOLLET`; when either step fails, close `client_fd`.  The flag tells
whether the connection was registered. -/
def registerClient (env : Env) (client_fd : Int) (s : Sys) : Bool × Sys :=
  let r := setNonBlocking env client_fd s
  if r.1 = -1 then (false, r.2.afterClose client_fd)
  else
    let c := env.ctls r.2.nCtl
    let s3 := r.2.afterEpollAdd client_fd (EPOLLIN ||| EPOLLET) c
    if c = -1 then (false, s3.afterClose client_fd)
    else (true, s3)

/-- Method `handleAccept`: the `while (true)` accept loop.  Both `errno`
branches of a failed `accept` leave the loop; after a successful `accept` the
loop goes on whether or not the connection could be registered. -/
def handleAccept (env : Env) : Nat → Sys → Option Sys
  | 0, _ => none
  | fuel + 1, s =>
    let client_fd := (env.accepts s.nAccept).1
    let errno := (env.accepts s.nAccept).2
    let s1 := s.afterAccept client_fd errno
    if client_fd = -1 then
      if wouldBlock errno then some s1 else some s1
    else handleAccept env fuel (registerClient env client_fd s1).2

/-- Method `closeClient`: deregister, then close. -/
def closeClient (client_fd : Int) (s : Sys) : Sys :=
  (s.afterEpollDel client_fd).afterClose client_fd

/-- The inner loop of `handleClient`: `while (written < n)` over the `n =
buffer.length` bytes just read.  Returns `true` when the loop ends with
`written >= n`, `false` when a write fails with an error other than would-block
(the caller then closes the connection). -/
def writeAll (env : Env) (client_fd : Int) (buffer : List Byte) :
    Nat → Nat → Sys → Option (Bool × Sys)
  | 0, _, _ => none
  | fuel + 1, written, s =>
    if written < buffer.length then
      match env.writes s.nWrite (buffer.length - written) with
      | WriteResult.fail errno =>
        let s1 := s.afterWrite client_fd (buffer.drop written) (WriteResult.fail errno)
        if wouldBlock errno then writeAll env client_fd buffer fuel written s1
        else some (false, s1)
      | WriteResult.ok w =>
        writeAll env client_fd buffer fuel (written + w)
          (s.afterWrite client_fd (buffer.drop written) (WriteResult.ok w))
    else some (true, s)

/-- The statistics update after a complete echo of `n` bytes. -/
def EchoServer.count (srv : EchoServer) (n : Nat) : EchoServer :=
  { srv with total_messages := (srv.total_messages + 1) % U64,
             total_bytes := (srv.total_bytes + n) % U64 }

/-- Method `handleClient`: the `while (true)` read loop. -/
def handleClient (env : Env) (client_fd : Int) :
    Nat → EchoServer → Sys → Option (EchoServer × Sys)
  | 0, _, _ => none
  | fuel + 1, srv, s =>
    match env.reads s.nRead with
    | ReadResult.ok buffer =>
      let s1 := s.afterRead client_fd (ReadResult.ok buffer)
      if 0 < buffer.length then
        match writeAll env client_fd buffer fuel 0 s1 with
        | none => none
        | some (false, s2) => some (srv, closeClient client_fd s2)
        | some (true, s2) =>
          let srv1 := srv.count buffer.length
          if srv1.has_traffic then handleClient env client_fd fuel srv1 s2
          else
            handleClient env client_fd fuel
              { srv1 with first_message_time := env.times s2.nTime, has_traffic := true }
              (s2.afterTime (env.times s2.nTime))
      else some (srv, closeClient client_fd s1)
    | ReadResult.fail errno =>
      let s1 := s.afterRead client_fd (ReadResult.fail errno)
      if wouldBlock errno then some (srv, s1)
      else some (srv, closeClient client_fd s1)

/-- The body of `printStats` once `now = time(nullptr)` is known: the blocks it
prints. -/
def statsBlocks (srv : EchoServer) (now : Int) : List StatsBlock :=
  if !srv.has_traffic then [StatsBlock.waiting]
  else
    let elapsed : Int := now - srv.first_message_time
    let total_elapsed : Int := now - srv.start_time
    if elapsed > 0 then
      [StatsBlock.rates total_elapsed elapsed srv.total_messages srv.total_bytes
        ((srv.total_messages : ℚ) / (elapsed : ℚ))
        ((srv.total_bytes : ℚ) / (elapsed : ℚ) / 1024)]
    else []

/-- Method `printStats`. -/
def printStats (env : Env) (srv : EchoServer) (s : Sys) : Sys :=
  let now := env.times s.nTime
  let s1 := s.afterTime now
  { s1 with out := s1.out ++ statsBlocks srv now }

/-- The `for` loop of `start` over the ready descriptors of one wake-up. -/
def handleEvents (env : Env) (fuel : Nat) :
    List Int → EchoServer → Sys → Option (EchoServer × Sys)
  | [], srv, s => some (srv, s)
  | fd :: rest, srv, s =>
    if fd = srv.listen_fd then
      match handleAccept env fuel s with
      | none => none
      | some s1 => handleEvents env fuel rest srv s1
    else
      match handleClient env fd fuel srv s with
      | none => none
      | some (srv1, s1) => handleEvents env fuel rest srv1 s1

/-- The `while (true)` event loop of `start`, with its local
`last_stats_time`; the value returned is the one `start` returns after the
loop. -/
def eventLoop (env : Env) : Nat → Int → EchoServer → Sys → Option (Int × EchoServer × Sys)
  | 0, _, _, _ => none
  | fuel + 1, last_stats_time, srv, s =>
    match env.waits s.nWait with
    | WaitResult.fail errno =>
      let s1 := s.afterWait (WaitResult.fail errno)
      if errno = EINTR then eventLoop env fuel last_stats_time srv s1
      else some (0, srv, s1)
    | WaitResult.ready fds =>
      match handleEvents env fuel fds srv (s.afterWait (WaitResult.ready fds)) with
      | none => none
      | some (srv1, s1) =>
        let now := env.times s1.nTime
        let s2 := s1.afterTime now
        if now - last_stats_time ≥ 1 then eventLoop env fuel now srv1 (printStats env srv1 s2)
        else eventLoop env fuel last_stats_time srv1 s2

/-- Method `start`. -/
def start (env : Env) (fuel : Nat) (srv : EchoServer) (s : Sys) :
    Option (Int × EchoServer × Sys) :=
  let r := createListenSocket env srv s
  if r.1 = -1 then some (-1, r.2.1, r.2.2)
  else
    let srv1 := { r.2.1 with epoll_fd := env.epoll_create1_ret }
    let s1 := r.2.2.log (Call.epollCreate env.epoll_create1_ret)
    if srv1.epoll_fd = -1 then some (-1, srv1, s1)
    else
      let c := env.ctls s1.nCtl
      let s2 := s1.afterEpollAdd srv1.listen_fd EPOLLIN c
      if c = -1 then some (-1, srv1, s2)
      else
        let t := env.times s2.nTime
        eventLoop env fuel t srv1 (s2.afterTime t)

/-- What the server's `main` does with its arguments: print a line on `stderr`
and return a status, or construct `EchoServer(port)` and return what its
`start()` returns. -/
inductive MainOutcome where
  | exit (status : Int) (stderr : String)
  | serve (port : Int)
  deriving DecidableEq, Repr

/-- The server's `main`; `atoi` is the C library function, `argv` the argument
vector (program name first). -/
def main (atoi : String → Int) (argv : List String) : MainOutcome :=
  match argv with
  | _ :: arg :: _ =>
    let port := atoi arg
    if port ≤ 0 ∨ port > 65535 then MainOutcome.exit 1 "Invalid port number"
    else MainOutcome.serve port
  | _ => MainOutcome.serve DEFAULT_PORT

/-- Destructor `~EchoServer`: closes `listen_fd` and `epoll_fd` when they are
not `-1` (whether or not an error path closed `listen_fd` before). -/
def EchoServer.destructor (srv : EchoServer) (s : Sys) : Sys :=
  let s1 := if srv.listen_fd ≠ -1 then s.afterClose srv.listen_fd else s
  if srv.epoll_fd ≠ -1 then s1.afterClose srv.epoll_fd else s1

/-- The whole process: the exit status of `main` and the final kernel state.
When a port is accepted, `main` constructs the server, returns what `start()`
returns, and the destructor of the server runs on the way out. -/
def runMain (atoi : String → Int) (argv : List String) (env : Env) (fuel : Nat) (s : Sys) :
    Option (Int × Sys) :=
  match main atoi argv with
  | MainOutcome.exit status _ => some (status, s)
  | MainOutcome.serve port =>
    let now := env.times s.nTime
    (start env fuel (EchoServer.new port now) (s.afterTime now)).map
      (fun r => (r.1, r.2.1.destructor r.2.2))


/-! ## The C library's `atoi`

`main` receives `atoi` as a parameter, so the theorems about `main` hold for
every behaviour of the library function.  The definition below is the behaviour
of glibc, used to run `main` on concrete argument vectors. -/

/-- The C `isspace` in the "C" locale: space, `\t`, `\n`, `\v`, `\f`, `\r`. -/
def isspace (c : Char) : Bool :=
  c.toNat == 32 || (9 ≤ c.toNat && c.toNat ≤ 13)

/-- The value of the longest prefix of decimal digits, continuing from `acc`. -/
def digitsValue : List Char → Int → Int
  | [], acc => acc
  | c :: cs, acc =>
    if 48 ≤ c.toNat ∧ c.toNat ≤ 57 then digitsValue cs (acc * 10 + ((c.toNat : Int) - 48))
    else acc

/-- The value `strtol(s, NULL, 10)` would have with unbounded integers: skip
leading white space, read an optional sign and the decimal digits that follow,
ignore the rest; `0` when there is no digit. -/
def leadingInteger (s : String) : Int :=
  match s.toList.dropWhile isspace with
  | [] => 0
  | c :: cs =>
    if c.toNat = 45 then - digitsValue cs 0
    else if c.toNat = 43 then digitsValue cs 0
    else digitsValue (c :: cs) 0

/-- The result of `strtol`: the value, held within the range of a 64-bit
`long`. -/
def clampLong (v : Int) : Int :=
  if v > 9223372036854775807 then 9223372036854775807
  else if v < -9223372036854775808 then -9223372036854775808
  else v

/-- Conversion of a `long` to a 32-bit `int`, keeping the low 32 bits. -/
def toInt32 (v : Int) : Int :=
  (v + 2147483648) % 4294967296 - 2147483648

/-- The C library's `atoi`, as glibc defines it: `(int) strtol(s, NULL, 10)`.
For a value that fits an `int` this is the leading integer of the string, which
is all the C standard specifies; beyond that range the standard leaves the
result undefined and glibc gives the low 32 bits of the clamped `long`. -/
def atoi (s : String) : Int :=
  toInt32 (clampLong (leadingInteger s))


/-! ## The stress client (`src/client/stress_client.cpp`) -/

namespace Client

/-- Source constant `DEFAULT_MESSAGE_SIZE`. -/
def DEFAULT_MESSAGE_SIZE : Int := 1024
/-- Source constant `DEFAULT_MESSAGE_COUNT`. -/
def DEFAULT_MESSAGE_COUNT : Int := 10000

/-- What the client's system calls return: `writes i c` and `reads i c` are the
outcomes of the `i`-th `write` and `read` when they ask for `c` bytes, and
`clock i` is the `i`-th reading of `high_resolution_clock::now()`, in ticks. -/
structure ClientEnv where
  socket_ret : Int
  inet_pton_ret : Int
  connect_ret : Int
  writes : Nat → Nat → WriteResult
  reads : Nat → Nat → ReadResult
  clock : Nat → Int

/-- Kernel-side state of the client: the number of calls of each kind so far. -/
structure Net where
  nWrite : Nat
  nRead : Nat
  nClock : Nat
  deriving DecidableEq, Repr

/-- Data members of `class StressClient`.  A latency is kept as the difference
of two clock readings, in ticks. -/
structure StressClient where
  server_ip : String
  port : Int
  message_size : Int
  message_count : Int
  latencies : List Int
  total_bytes_sent : Nat
  total_bytes_received : Nat
  successful_messages : Int
  failed_messages : Int
  deriving DecidableEq, Repr

/-- Constructor `StressClient(ip, p, msg_size, msg_count)`. -/
def StressClient.new (ip : String) (p msg_size msg_count : Int) : StressClient :=
  { server_ip := ip, port := p, message_size := msg_size, message_count := msg_count,
    latencies := [], total_bytes_sent := 0, total_bytes_received := 0,
    successful_messages := 0, failed_messages := 0 }

/-- Method `connectToServer`: the descriptor, or `-1` when `socket`,
`inet_pton` or `connect` fails. -/
def connectToServer (env : ClientEnv) : Int :=
  if env.socket_ret = -1 then -1
  else if env.inet_pton_ret ≤ 0 then -1
  else if env.connect_ret = -1 then -1
  else env.socket_ret

/-- The send loop of `sendAndReceive`: `while (sent < msg_len)`.  The inner
result is `none` when a `write` returns `n <= 0`, else the final `sent`. -/
def sendLoop (env : ClientEnv) (msg_len : Nat) : Nat → Nat → Net → Option (Option Nat × Net)
  | 0, _, _ => none
  | fuel + 1, sent, net =>
    if sent < msg_len then
      let net1 := { net with nWrite := net.nWrite + 1 }
      match env.writes net.nWrite (msg_len - sent) with
      | WriteResult.fail _ => some (none, net1)
      | WriteResult.ok n =>
        if n ≤ 0 then some (none, net1)
        else sendLoop env msg_len fuel (sent + n) net1
    else some (some sent, net)

/-- The receive loop of `sendAndReceive`: `while (received < msg_len)`, storing
each chunk at `buffer + received`.  The inner result is `none` when a `read`
returns `n <= 0`, else the final `received` and the bytes stored. -/
def recvLoop (env : ClientEnv) (msg_len : Nat) :
    Nat → Nat → List Byte → Net → Option (Option (Nat × List Byte) × Net)
  | 0, _, _, _ => none
  | fuel + 1, received, buffer, net =>
    if received < msg_len then
      let net1 := { net with nRead := net.nRead + 1 }
      match env.reads net.nRead (msg_len - received) with
      | ReadResult.fail _ => some (none, net1)
      | ReadResult.ok data =>
        if data.length ≤ 0 then some (none, net1)
        else recvLoop env msg_len fuel (received + data.length) (buffer ++ data) net1
    else some (some (received, buffer), net)

/-- Method `sendAndReceive` for `msg_len = message.length` (at most
`BUFFER_SIZE`, as `main` checks): the returned flag, the latency (meaningful
when the flag is true), and the updated byte counters.  Each loop gets
`msg_len + 1` units of fuel, which is enough because every iteration that
continues adds at least one byte. -/
def sendAndReceive (env : ClientEnv) (message : List Byte) (c : StressClient) (net : Net) :
    Option (Bool × Int × StressClient × Net) :=
  let start := env.clock net.nClock
  let net0 := { net with nClock := net.nClock + 1 }
  match sendLoop env message.length (message.length + 1) 0 net0 with
  | none => none
  | some (none, net1) => some (false, 0, c, net1)
  | some (some sent, net1) =>
    let c1 := { c with total_bytes_sent := (c.total_bytes_sent + sent) % U64 }
    match recvLoop env message.length (message.length + 1) 0 [] net1 with
    | none => none
    | some (none, net2) => some (false, 0, c1, net2)
    | some (some (received, buffer), net2) =>
      let c2 := { c1 with total_bytes_received := (c1.total_bytes_received + received) % U64 }
      let latency := env.clock net2.nClock - start
      let net3 := { net2 with nClock := net2.nClock + 1 }
      if buffer.take message.length ≠ message then some (false, latency, c2, net3)
      else some (true, latency, c2, net3)

/-- The bookkeeping of `run` after one call of `sendAndReceive`. -/
def StressClient.record (c : StressClient) (ok : Bool) (latency : Int) : StressClient :=
  if ok then
    { c with successful_messages := c.successful_messages + 1,
             latencies := c.latencies ++ [latency] }
  else { c with failed_messages := c.failed_messages + 1 }

/-- The `for` loop of `run`, with `k` messages still to send. -/
def messageLoop (env : ClientEnv) (message : List Byte) :
    Nat → StressClient → Net → Option (StressClient × Net)
  | 0, c, net => some (c, net)
  | k + 1, c, net =>
    match sendAndReceive env message c net with
    | none => none
    | some (ok, latency, c1, net1) => messageLoop env message k (c1.record ok latency) net1

/-- The message prepared by `run`: byte `i` is `'A' + (i % 26)`. -/
def makeMessage (message_size : Int) : List Byte :=
  (List.range message_size.toNat).map (fun i => Fin.ofNat (65 + i % 26))

/-- The latency figures printed by `calculateStats`; an entry is `none` when
the index read is out of bounds. -/
structure LatencyStats where
  min : Option Int
  max : Option Int
  p50 : Option Int
  p95 : Option Int
  p99 : Option Int
  deriving DecidableEq, Repr

/-- Method `calculateStats`: when `successful_messages > 0` it sorts
`latencies` in place and reads the minimum, the maximum and the three
percentiles. -/
def calculateStats (c : StressClient) : StressClient × Option LatencyStats :=
  if c.successful_messages > 0 then
    let l := c.latencies.insertionSort (fun a b => a ≤ b)
    ({ c with latencies := l },
      some { min := l.head?, max := l.getLast?,
             p50 := l[l.length * 50 / 100]?, p95 := l[l.length * 95 / 100]?,
             p99 := l[l.length * 99 / 100]? })
  else (c, none)

/-- Method `run`: `-1` when the connection fails, else `0` or `1`. -/
def run (env : ClientEnv) (c : StressClient) (net : Net) : Option (Int × StressClient × Net) :=
  if connectToServer env = -1 then some (-1, c, net)
  else
    let message := makeMessage c.message_size
    let net0 := { net with nClock := net.nClock + 1 }
    match messageLoop env message c.message_count.toNat c net0 with
    | none => none
    | some (c1, net1) =>
      let net2 := { net1 with nClock := net1.nClock + 1 }
      let c2 := (calculateStats c1).1
      some (if c2.failed_messages = 0 then 0 else 1, c2, net2)

/-- A line printed by the client's `main`. -/
inductive Output where
  | usage
  | unknownOption (arg : String)
  | invalidPort
  | invalidSize
  | invalidCount
  deriving DecidableEq, Repr

/-- The four locals of `main` that the options set. -/
structure Config where
  server_ip : String
  port : Int
  message_size : Int
  message_count : Int
  deriving DecidableEq, Repr

/-- The defaults of `main`. -/
def Config.default : Config :=
  { server_ip := "127.0.0.1", port := DEFAULT_PORT,
    message_size := DEFAULT_MESSAGE_SIZE, message_count := DEFAULT_MESSAGE_COUNT }

/-- What the client's `main` does: print and return a status, or construct
`StressClient` from the configuration and return what its `run()` returns. -/
inductive MainOutcome where
  | exit (status : Int) (printed : List Output)
  | run (cfg : Config)
  deriving DecidableEq, Repr

/-- The option loop of `main` over `argv[i..]`: `none` when all arguments were
consumed, else the outcome of the `return` inside the loop. -/
def parseArgs (atoi : String → Int) : List String → Config → Config × Option MainOutcome
  | [], cfg => (cfg, none)
  | [a], cfg =>
    if a = "-?" then (cfg, some (MainOutcome.exit 0 [Output.usage]))
    else (cfg, some (MainOutcome.exit 1 [Output.unknownOption a, Output.usage]))
  | a :: v :: rest, cfg =>
    if a = "-h" then parseArgs atoi rest { cfg with server_ip := v }
    else if a = "-p" then parseArgs atoi rest { cfg with port := atoi v }
    else if a = "-s" then parseArgs atoi rest { cfg with message_size := atoi v }
    else if a = "-n" then parseArgs atoi rest { cfg with message_count := atoi v }
    else if a = "-?" then (cfg, some (MainOutcome.exit 0 [Output.usage]))
    else (cfg, some (MainOutcome.exit 1 [Output.unknownOption a, Output.usage]))

/-- The client's `main`; `argv` is the argument vector (program name first). -/
def main (atoi : String → Int) (argv : List String) : MainOutcome :=
  match parseArgs atoi argv.tail Config.default with
  | (_, some outcome) => outcome
  | (cfg, none) =>
    if cfg.port ≤ 0 ∨ cfg.port > 65535 then MainOutcome.exit 1 [Output.invalidPort]
    else if cfg.message_size ≤ 0 ∨ cfg.message_size > BUFFER_SIZE then
      MainOutcome.exit 1 [Output.invalidSize]
    else if cfg.message_count ≤ 0 then MainOutcome.exit 1 [Output.invalidCount]
    else MainOutcome.run cfg

end Client


/-! ## Trace observations -/

/-- The bytes accepted by the `write` calls of a trace, in call order. -/
def acceptedBytes : List Call → List Byte
  | [] => []
  | Call.write _ buf (WriteResult.ok w) :: tr => buf.take w ++ acceptedBytes tr
  | _ :: tr => acceptedBytes tr

/-- One step of the chunk discipline: the state is the number of bytes of the
current chunk still to be written, `none` once the discipline was broken (a
read issued with bytes outstanding, or a write accepting more than remain). -/
def chunkStep : Option Nat → Call → Option Nat
  | some r, Call.read _ (ReadResult.ok d) => if r = 0 then some d.length else none
  | some r, Call.read _ (ReadResult.fail _) => if r = 0 then some 0 else none
  | some r, Call.write _ _ (WriteResult.ok w) => if w ≤ r then some (r - w) else none
  | st, _ => st

/-- Every chunk read is written back completely, and exactly, before the next
read is issued and before the trace ends. -/
def chunksComplete (tr : List Call) : Bool :=
  tr.foldl chunkStep (some 0) == some 0

/-- The data of a read outcome (`[]` for a failure). -/
def ReadResult.chunk : ReadResult → List Byte
  | ReadResult.ok d => d
  | ReadResult.fail _ => []

/-- The read returned `n > 0`. -/
def ReadResult.isData : ReadResult → Bool
  | ReadResult.ok d => decide (0 < d.length)
  | ReadResult.fail _ => false

/-- One step of the scan for completed echoes.  The state is the chunk being
written back, as `(n, written)`, and the lengths of the chunks completed so
far.  A read of `n > 0` bytes opens a chunk; each accepted write adds its count;
the chunk is complete when the counts reach `n`.  A read of 0 bytes or a failed
read opens no chunk, and a failed write adds nothing. -/
def echoStep (st : Option (Nat × Nat) × List Nat) : Call → Option (Nat × Nat) × List Nat
  | Call.read _ r => (if 0 < r.chunk.length then some (r.chunk.length, 0) else none, st.2)
  | Call.write _ _ (WriteResult.ok w) =>
    match st.1 with
    | some (n, written) =>
      if n ≤ written + w then (none, st.2 ++ [n]) else (some (n, written + w), st.2)
    | none => st
  | _ => st

/-- The lengths `N` of the reads of a trace that were completely written back,
in order. -/
def echoedLengths (tr : List Call) : List Nat :=
  (tr.foldl echoStep (none, [])).2

/-- The concatenation of the chunks returned by the reads `start, ..., start+k-1`. -/
def chunksBefore (env : Env) : Nat → Nat → List Byte
  | _, 0 => []
  | start, k + 1 => (env.reads start).chunk ++ chunksBefore env (start + 1) k

/-! ## Assumptions on the script and summaries of a run -/

/-- The script's `write` outcomes respect the kernel contract and never fail for
good: a count is between 1 and the bytes asked for, and a failure is would-block. -/
structure WritesRecover (env : Env) : Prop where
  count_ok : ∀ i c w, 1 ≤ c → env.writes i c = WriteResult.ok w → 1 ≤ w ∧ w ≤ c
  only_wouldBlock : ∀ i c e, 1 ≤ c → env.writes i c = WriteResult.fail e → wouldBlock e = true
  runs_end : ∀ i, ∃ j, i ≤ j ∧ ∀ c, 1 ≤ c → ∃ w, env.writes j c = WriteResult.ok w


/-- What one returning run of `handleClient` did, in terms of the new part `tr`
of the trace and the lengths `L` of the reads it echoed completely. -/
structure ClientRun (env : Env) (srv srv' : EchoServer) (s s' : Sys)
    (tr : List Call) (L : List Nat) : Prop where
  trace_eq : s'.trace = s.trace ++ tr
  scan : ∀ p acc, (tr.foldl echoStep (p, acc)).2 = acc ++ L
  messages : srv'.total_messages =
    if L = [] then srv.total_messages else (srv.total_messages + L.length) % U64
  bytes : srv'.total_bytes =
    if L = [] then srv.total_bytes else (srv.total_bytes + L.sum) % U64
  traffic : srv'.has_traffic = (srv.has_traffic || !L.isEmpty)
  first_time : srv'.first_message_time =
    if (srv.has_traffic || L.isEmpty) = true then srv.first_message_time else env.times s.nTime
  time_calls : s'.nTime = if (srv.has_traffic || L.isEmpty) = true then s.nTime else s.nTime + 1
  listen_fd : srv'.listen_fd = srv.listen_fd
  epoll_fd : srv'.epoll_fd = srv.epoll_fd
  port : srv'.port = srv.port
  start_time : srv'.start_time = srv.start_time

/-! ## A concrete script: two chunks, every other write would block -/

/-- A script whose reads return `[1,2,3]`, `[4,5]` and then would-block, and
whose writes alternate between would-block and accepting at most two bytes. -/
def demoEnv : Env :=
  { reads := fun i =>
      if i = 0 then ReadResult.ok [1, 2, 3]
      else if i = 1 then ReadResult.ok [4, 5]
      else ReadResult.fail EAGAIN,
    writes := fun i c => if i % 2 = 0 then WriteResult.fail EAGAIN else WriteResult.ok (min c 2),
    accepts := fun _ => (-1, EAGAIN),
    fcntls := fun _ => 0,
    ctls := fun _ => 0,
    waits := fun _ => WaitResult.ready [],
    times := fun i => 1000 + i,
    socket_ret := 3, setsockopt_ret := 0, bind_ret := 0, listen_ret := 0,
    epoll_create1_ret := 4 }


/-! ## A concrete script: one hundred messages of 64 bytes -/

/-- The 64-byte message of the scenario. -/
def msg64 : List Byte := List.replicate 64 65

/-- A script whose first 100 reads return 64 bytes each, whose later reads
would block, and whose writes accept everything offered. -/
def bulkEnv : Env :=
  { demoEnv with
    reads := fun i => if i < 100 then ReadResult.ok msg64 else ReadResult.fail EAGAIN,
    writes := fun _ c => WriteResult.ok c,
    times := fun _ => 1700000000 }

/-- The calls `handleClient` issues under `bulkEnv`. -/
def bulkTrace : List Call :=
  [Call.read 7 (ReadResult.ok msg64), Call.write 7 msg64 (WriteResult.ok 64),
    Call.time 1700000000] ++
  (List.replicate 99
    [Call.read 7 (ReadResult.ok msg64), Call.write 7 msg64 (WriteResult.ok 64)]).flatten ++
  [Call.read 7 (ReadResult.fail EAGAIN)]

/-- The kernel state after that run. -/
def bulkSys : Sys :=
  { Sys.init with nRead := 101, nWrite := 100, nTime := 1, trace := bulkTrace }

/-- The server before that run: port 9999, started at 1699999999. -/
def bulkSrv0 : EchoServer := EchoServer.new 9999 1699999999

/-- The server after that run. -/
def bulkSrv : EchoServer :=
  { bulkSrv0 with total_messages := 100, total_bytes := 6400,
                  first_message_time := 1700000000, has_traffic := true }

/-! ## Connection teardown -/

/-- A call whose outcome ends the connection: a read that returned 0, or a read
or write that failed with an error other than would-block. -/
def fatal : Call → Bool
  | Call.read _ (ReadResult.ok d) => d.length == 0
  | Call.read _ (ReadResult.fail e) => !wouldBlock e
  | Call.write _ _ (WriteResult.fail e) => !wouldBlock e
  | _ => false

/-- A call that neither ends the connection nor tears anything down. -/
def quiet : Call → Bool
  | Call.epollDel _ => false
  | Call.close _ => false
  | c => !fatal c

/-- The descriptor tables of `s'` are those of `s`. -/
def Sys.sameTables (s s' : Sys) : Prop :=
  s'.isOpen = s.isOpen ∧ s'.registered = s.registered ∧ s'.nonblocking = s.nonblocking

/-- The descriptor tables of `s'` are those of `s` except that `fd` is closed
and out of the interest list. -/
def Sys.closedIn (s s' : Sys) (fd : Int) : Prop :=
  s'.isOpen = Function.update s.isOpen fd false ∧
  s'.registered = Function.update s.registered fd none ∧
  s'.nonblocking = Function.update s.nonblocking fd false

/-- The shape of the calls of one `handleClient` run: either nothing fatal
happened and nothing was torn down, or the run ends with a fatal call followed
by exactly the deregistration and the close of `fd`. -/
def TeardownShape (fd : Int) (s s' : Sys) (tr : List Call) : Prop :=
  (tr.all quiet = true ∧ s.sameTables s') ∨
  (∃ pre c, tr = pre ++ [c, Call.epollDel fd, Call.close fd] ∧ fatal c = true ∧
    pre.all quiet = true ∧ s.closedIn s' fd)

/-- A script with one chunk, echoed, and then an orderly close by the peer. -/
def closingEnv : Env :=
  { demoEnv with
    reads := fun i => if i = 0 then ReadResult.ok [10, 20] else ReadResult.ok [],
    writes := fun _ c => WriteResult.ok c }

/-- A kernel state with the listener 3 and the clients 7 and 8 open,
non-blocking and registered. -/
def servingSys : Sys :=
  { Sys.init with
    isOpen := fun fd => fd = 3 ∨ fd = 7 ∨ fd = 8,
    nonblocking := fun fd => fd = 3 ∨ fd = 7 ∨ fd = 8,
    registered := fun fd =>
      if fd = 3 then some EPOLLIN
      else if fd = 7 ∨ fd = 8 then some (EPOLLIN ||| EPOLLET) else none }

/-- A server object listening on descriptor 3 with epoll descriptor 4. -/
def servingSrv : EchoServer :=
  { EchoServer.new 8888 1000 with listen_fd := 3, epoll_fd := 4 }

/-- The calls of `handleClient` on descriptor 7 under `closingEnv`. -/
def closingTrace : List Call :=
  [Call.read 7 (ReadResult.ok [10, 20]), Call.write 7 [10, 20] (WriteResult.ok 2),
    Call.time 1000, Call.read 7 (ReadResult.ok []), Call.epollDel 7, Call.close 7]

/-- The kernel state after that run: descriptor 7 closed and deregistered. -/
def closedSys : Sys :=
  { servingSys with
    nRead := 2, nWrite := 1, nTime := 1, trace := closingTrace,
    isOpen := Function.update servingSys.isOpen 7 false,
    nonblocking := Function.update servingSys.nonblocking 7 false,
    registered := Function.update (Function.update servingSys.registered 7 none) 7 none }

/-- The server object after that run: one message of two bytes counted. -/
def closedSrv : EchoServer :=
  { servingSrv with total_messages := 1, total_bytes := 2, first_message_time := 1000,
                    has_traffic := true }

/-! ## Scripts for the start-up and the statistics -/

/-- A script in which the start-up succeeds (listener 3, epoll descriptor 4) and
the first `epoll_wait` fails with `EBADF`. -/
def waitErrorEnv : Env :=
  { demoEnv with waits := fun _ => WaitResult.fail EBADF }

/-- A script in which the start-up succeeds, the first `epoll_wait` is
interrupted by a signal and the second one fails with `EBADF`. -/
def interruptedEnv : Env :=
  { demoEnv with
    waits := fun i => if i = 0 then WaitResult.fail EINTR else WaitResult.fail EBADF }

/-- The divisor of the two quotients of a block (`1` for the placeholder, which
divides nothing). -/
def StatsBlock.divisor : StatsBlock → Int
  | StatsBlock.waiting => 1
  | StatsBlock.rates _ active _ _ _ _ => active

/-! ## The history of a server -/

/-- One step of a running server: a call of `handleAccept`, of `handleClient`
or of `printStats` that returns, under any script. -/
inductive Step : EchoServer × Sys → EchoServer × Sys → Prop where
  | accept (env : Env) (fuel : Nat) (srv : EchoServer) (s s' : Sys) :
      handleAccept env fuel s = some s' → Step (srv, s) (srv, s')
  | client (env : Env) (fd : Int) (fuel : Nat) (srv srv' : EchoServer) (s s' : Sys) :
      handleClient env fd fuel srv s = some (srv', s') → Step (srv, s) (srv', s')
  | stats (env : Env) (srv : EchoServer) (s : Sys) :
      Step (srv, s) (srv, printStats env srv s)

/-- The states reachable from the constructor (with the two descriptors that
`start` fills in), in a kernel state in which nothing has been echoed yet. -/
inductive Reach : EchoServer × Sys → Prop where
  | init (p now listen_fd epoll_fd : Int) (s : Sys) : echoedLengths s.trace = [] →
      Reach ({ EchoServer.new p now with listen_fd := listen_fd, epoll_fd := epoll_fd }, s)
  | step (a b : EchoServer × Sys) : Reach a → Step a b → Reach b

/-- A call that is neither a `read` nor a `write`. -/
def nonTransfer : Call → Bool
  | Call.read _ _ => false
  | Call.write _ _ _ => false
  | _ => true

/-! ## The accept loop -/

/-- The kernel state after the accept loop has accepted `k` connections and
then met an `accept` that returns `-1`. -/
def acceptFinal (env : Env) : Nat → Sys → Sys
  | 0, s => s.afterAccept (env.accepts s.nAccept).1 (env.accepts s.nAccept).2
  | k + 1, s =>
    acceptFinal env k
      (registerClient env (env.accepts s.nAccept).1
        (s.afterAccept (env.accepts s.nAccept).1 (env.accepts s.nAccept).2)).2

/-- The first `k` connections accepted from state `s`, in order: the descriptor
returned by `accept`, and whether both `setNonBlocking` and `epoll_ctl`
succeeded for it. -/
def acceptLog (env : Env) : Nat → Sys → List (Int × Bool)
  | 0, _ => []
  | k + 1, s =>
    let r := registerClient env (env.accepts s.nAccept).1
      (s.afterAccept (env.accepts s.nAccept).1 (env.accepts s.nAccept).2)
    ((env.accepts s.nAccept).1, r.1) :: acceptLog env k r.2

/-- A script with three pending connections, descriptors 10, 11 and 12: the
`fcntl(F_SETFL)` of 10 fails, 11 is registered, the `epoll_ctl` of 12 fails,
and the fourth `accept` would block. -/
def acceptEnv : Env :=
  { demoEnv with
    accepts := fun i => if i < 3 then (10 + (i : Int), 0) else (-1, EAGAIN),
    fcntls := fun i => if i = 1 then -1 else 0,
    ctls := fun i => if i = 1 then -1 else 0 }

/-! ## Port numbers on the command line -/

/-- The string is a port number `p` in [1, 65535]: a non-empty string of
decimal digits whose value is `p`, with `p` in that range. -/
def isPortNumber (arg : String) (p : Int) : Bool :=
  !arg.toList.isEmpty &&
  arg.toList.all (fun c => decide (48 ≤ c.toNat ∧ c.toNat ≤ 57)) &&
  decide (digitsValue arg.toList 0 = p) && decide (1 ≤ p) && decide (p ≤ 65535)

namespace Client

/-- The flags returned by the first `k` calls of `sendAndReceive` made by the
loop of `run` from the given state, in order. -/
def outcomes (env : ClientEnv) (message : List Byte) :
    Nat → StressClient → Net → List Bool
  | 0, _, _ => []
  | k + 1, c, net =>
    match sendAndReceive env message c net with
    | none => []
    | some (ok, latency, c1, net1) => ok :: outcomes env message k (c1.record ok latency) net1

/-- A server that echoes every message entirely, one call each. -/
def echoingEnv : ClientEnv :=
  { socket_ret := 3, inet_pton_ret := 1, connect_ret := 0,
    writes := fun _ c => WriteResult.ok c,
    reads := fun _ c => ReadResult.ok ((List.range c).map (fun i => Fin.ofNat (65 + i % 26))),
    clock := fun i => 1000 * i }

/-- A server that echoes the first message correctly and returns zeros for the
later ones. -/
def corruptingEnv : ClientEnv :=
  { echoingEnv with
    reads := fun i c =>
      if i = 0 then ReadResult.ok ((List.range c).map (fun i => Fin.ofNat (65 + i % 26)))
      else ReadResult.ok (List.replicate c 0) }

/-- A list of option/value pairs as it appears on the command line. -/
def flatten : List (String × String) → List String
  | [] => []
  | (f, v) :: ps => f :: v :: flatten ps

/-- The effect of one option/value pair on the configuration. -/
def applyFlag (atoi : String → Int) (cfg : Config) (fv : String × String) : Config :=
  if fv.1 = "-h" then { cfg with server_ip := fv.2 }
  else if fv.1 = "-p" then { cfg with port := atoi fv.2 }
  else if fv.1 = "-s" then { cfg with message_size := atoi fv.2 }
  else { cfg with message_count := atoi fv.2 }

/-- One of the four options that take a value. -/
def isValueFlag (a : String) : Bool :=
  a = "-h" ∨ a = "-p" ∨ a = "-s" ∨ a = "-n"

/-- The validation `main` applies once every argument has been consumed. -/
def validate (cfg : Config) : MainOutcome :=
  if cfg.port ≤ 0 ∨ cfg.port > 65535 then MainOutcome.exit 1 [Output.invalidPort]
  else if cfg.message_size ≤ 0 ∨ cfg.message_size > BUFFER_SIZE then
    MainOutcome.exit 1 [Output.invalidSize]
  else if cfg.message_count ≤ 0 then MainOutcome.exit 1 [Output.invalidCount]
  else MainOutcome.run cfg

/-- A server that echoes every message entirely, with a clock under which the
five messages of a run take 500, 200, 900, 100 and 700 ticks. -/
def jitterEnv : ClientEnv :=
  { echoingEnv with
    clock := fun i => if i % 2 = 1 then 0 else [0, 500, 200, 900, 100, 700].getD (i / 2) 0 }

/-- The client of the run under `jitterEnv`: five messages of four bytes. -/
def jitterClient : StressClient := StressClient.new "127.0.0.1" 8888 4 5

/-- The client after the loop of that run. -/
def jitterDone : StressClient :=
  { jitterClient with
    latencies := [500, 200, 900, 100, 700], total_bytes_sent := 20,
    total_bytes_received := 20, successful_messages := 5 }

end Client

/-! ## Unfolding lemmas for the loops -/

theorem writeAll_done (env : Env) (fd : Int) (buffer : List Byte) (f written : Nat) (s : Sys)
    (h : ¬ written < buffer.length) :
    writeAll env fd buffer (f + 1) written s = some (true, s) := by
  simp [writeAll, h]

theorem writeAll_ok (env : Env) (fd : Int) (buffer : List Byte) (f written w : Nat) (s : Sys)
    (h : written < buffer.length)
    (hr : env.writes s.nWrite (buffer.length - written) = WriteResult.ok w) :
    writeAll env fd buffer (f + 1) written s =
      writeAll env fd buffer f (written + w)
        (s.afterWrite fd (buffer.drop written) (WriteResult.ok w)) := by
  simp [writeAll, h, hr]

theorem writeAll_retry (env : Env) (fd : Int) (buffer : List Byte) (f written : Nat) (s : Sys)
    (e : Int) (h : written < buffer.length)
    (hr : env.writes s.nWrite (buffer.length - written) = WriteResult.fail e)
    (he : wouldBlock e = true) :
    writeAll env fd buffer (f + 1) written s =
      writeAll env fd buffer f written
        (s.afterWrite fd (buffer.drop written) (WriteResult.fail e)) := by
  simp [writeAll, h, hr, he]

theorem writeAll_error (env : Env) (fd : Int) (buffer : List Byte) (f written : Nat) (s : Sys)
    (e : Int) (h : written < buffer.length)
    (hr : env.writes s.nWrite (buffer.length - written) = WriteResult.fail e)
    (he : wouldBlock e = false) :
    writeAll env fd buffer (f + 1) written s =
      some (false, s.afterWrite fd (buffer.drop written) (WriteResult.fail e)) := by
  simp [writeAll, h, hr, he]

theorem handleClient_eof (env : Env) (fd : Int) (f : Nat) (srv : EchoServer) (s : Sys)
    (buffer : List Byte) (hr : env.reads s.nRead = ReadResult.ok buffer)
    (h0 : buffer.length = 0) :
    handleClient env fd (f + 1) srv s =
      some (srv, closeClient fd (s.afterRead fd (ReadResult.ok buffer))) := by
  simp [handleClient, hr, h0]

theorem handleClient_wouldBlock (env : Env) (fd : Int) (f : Nat) (srv : EchoServer) (s : Sys)
    (e : Int) (hr : env.reads s.nRead = ReadResult.fail e) (he : wouldBlock e = true) :
    handleClient env fd (f + 1) srv s = some (srv, s.afterRead fd (ReadResult.fail e)) := by
  simp [handleClient, hr, he]

theorem handleClient_readError (env : Env) (fd : Int) (f : Nat) (srv : EchoServer) (s : Sys)
    (e : Int) (hr : env.reads s.nRead = ReadResult.fail e) (he : wouldBlock e = false) :
    handleClient env fd (f + 1) srv s =
      some (srv, closeClient fd (s.afterRead fd (ReadResult.fail e))) := by
  simp [handleClient, hr, he]

theorem handleClient_writeError (env : Env) (fd : Int) (f : Nat) (srv : EchoServer) (s s2 : Sys)
    (buffer : List Byte) (hr : env.reads s.nRead = ReadResult.ok buffer)
    (h0 : 0 < buffer.length)
    (hwr : writeAll env fd buffer f 0 (s.afterRead fd (ReadResult.ok buffer)) = some (false, s2)) :
    handleClient env fd (f + 1) srv s = some (srv, closeClient fd s2) := by
  simp [handleClient, hr, h0, hwr]

theorem handleClient_echoed (env : Env) (fd : Int) (f : Nat) (srv : EchoServer) (s s2 : Sys)
    (buffer : List Byte) (hr : env.reads s.nRead = ReadResult.ok buffer)
    (h0 : 0 < buffer.length)
    (hwr : writeAll env fd buffer f 0 (s.afterRead fd (ReadResult.ok buffer)) = some (true, s2))
    (ht : srv.has_traffic = true) :
    handleClient env fd (f + 1) srv s =
      handleClient env fd f (srv.count buffer.length) s2 := by
  simp [handleClient, hr, h0, hwr, ht, EchoServer.count]

theorem handleClient_first (env : Env) (fd : Int) (f : Nat) (srv : EchoServer) (s s2 : Sys)
    (buffer : List Byte) (hr : env.reads s.nRead = ReadResult.ok buffer)
    (h0 : 0 < buffer.length)
    (hwr : writeAll env fd buffer f 0 (s.afterRead fd (ReadResult.ok buffer)) = some (true, s2))
    (ht : srv.has_traffic = false) :
    handleClient env fd (f + 1) srv s =
      handleClient env fd f
        { srv.count buffer.length with
            first_message_time := env.times s2.nTime, has_traffic := true }
        (s2.afterTime (env.times s2.nTime)) := by
  simp [handleClient, hr, h0, hwr, ht, EchoServer.count]

theorem handleClient_stuck (env : Env) (fd : Int) (f : Nat) (srv : EchoServer) (s : Sys)
    (buffer : List Byte) (hr : env.reads s.nRead = ReadResult.ok buffer)
    (h0 : 0 < buffer.length)
    (hwr : writeAll env fd buffer f 0 (s.afterRead fd (ReadResult.ok buffer)) = none) :
    handleClient env fd (f + 1) srv s = none := by
  simp [handleClient, hr, h0, hwr]

/-! ## Trace observations distribute over concatenation -/

theorem acceptedBytes_append (a b : List Call) :
    acceptedBytes (a ++ b) = acceptedBytes a ++ acceptedBytes b := by
  induction a with
  | nil => rfl
  | cons c a ih =>
    cases c with
    | write fd buf res => cases res <;> simp [acceptedBytes, ih]
    | _ => simp [acceptedBytes, ih]


/-! ## C1: the write-back loop completes under back-pressure that ends -/

theorem writeAll_completes (env : Env) (fd : Int) (buffer : List Byte) (h : WritesRecover env) :
    ∀ (r written : Nat) (s : Sys), buffer.length - written = r → written ≤ buffer.length →
      ∃ F s' ws, (∀ f, F ≤ f → writeAll env fd buffer f written s = some (true, s')) ∧
        s'.trace = s.trace ++ ws ∧ acceptedBytes ws = buffer.drop written ∧
        ws.foldl chunkStep (some r) = some 0 ∧ s'.nRead = s.nRead ∧ s'.nTime = s.nTime := by
  intro r
  induction r using Nat.strong_induction_on with
  | _ r ih =>
    intro written s hr hle
    by_cases hlt : written < buffer.length
    · -- at least one byte outstanding: skip the would-block results, then progress
      have hc : 1 ≤ buffer.length - written := by omega
      obtain ⟨j, hj, hjok⟩ := h.runs_end s.nWrite
      obtain ⟨d, rfl⟩ : ∃ d, j = s.nWrite + d := ⟨j - s.nWrite, by omega⟩
      clear hj
      induction d generalizing s with
      | zero =>
        obtain ⟨w, hwr⟩ := hjok _ hc
        rw [Nat.add_zero] at hwr
        obtain ⟨hw1, hw2⟩ := h.count_ok _ _ _ hc hwr
        obtain ⟨F, s', ws, hrun, htr, hacc, hch, hnr, hnt⟩ :=
          ih (r - w) (by omega) (written + w)
            (s.afterWrite fd (buffer.drop written) (WriteResult.ok w)) (by omega) (by omega)
        refine ⟨F + 1, s', Call.write fd (buffer.drop written) (WriteResult.ok w) :: ws,
          ?_, ?_, ?_, ?_, hnr, hnt⟩
        · intro f hf
          obtain ⟨f', rfl⟩ : ∃ f', f = f' + 1 := ⟨f - 1, by omega⟩
          rw [writeAll_ok env fd buffer f' written w s hlt hwr]
          exact hrun f' (by omega)
        · rw [htr]; simp [Sys.afterWrite]
        · simp only [acceptedBytes, hacc]
          rw [← List.drop_drop]
          exact List.take_append_drop w (buffer.drop written)
        · have hwr' : w ≤ r := by omega
          simp only [List.foldl_cons, chunkStep, hwr', if_true]
          exact hch
      | succ d ihd =>
        cases hwr : env.writes s.nWrite (buffer.length - written) with
        | ok w =>
          obtain ⟨hw1, hw2⟩ := h.count_ok _ _ _ hc hwr
          obtain ⟨F, s', ws, hrun, htr, hacc, hch, hnr, hnt⟩ :=
            ih (r - w) (by omega) (written + w)
              (s.afterWrite fd (buffer.drop written) (WriteResult.ok w)) (by omega) (by omega)
          refine ⟨F + 1, s', Call.write fd (buffer.drop written) (WriteResult.ok w) :: ws,
            ?_, ?_, ?_, ?_, hnr, hnt⟩
          · intro f hf
            obtain ⟨f', rfl⟩ : ∃ f', f = f' + 1 := ⟨f - 1, by omega⟩
            rw [writeAll_ok env fd buffer f' written w s hlt hwr]
            exact hrun f' (by omega)
          · rw [htr]; simp [Sys.afterWrite]
          · simp only [acceptedBytes, hacc]
            rw [← List.drop_drop]
            exact List.take_append_drop w (buffer.drop written)
          · have hwr' : w ≤ r := by omega
            simp only [List.foldl_cons, chunkStep, hwr', if_true]
            exact hch
        | fail e =>
          have he := h.only_wouldBlock _ _ _ hc hwr
          obtain ⟨F, s', ws, hrun, htr, hacc, hch, hnr, hnt⟩ :=
            ihd (s.afterWrite fd (buffer.drop written) (WriteResult.fail e))
              (by
                have : (s.afterWrite fd (buffer.drop written) (WriteResult.fail e)).nWrite + d
                    = s.nWrite + (d + 1) := by simp [Sys.afterWrite]; omega
                rw [this]; exact hjok)
          refine ⟨F + 1, s', Call.write fd (buffer.drop written) (WriteResult.fail e) :: ws,
            ?_, ?_, ?_, ?_, hnr, hnt⟩
          · intro f hf
            obtain ⟨f', rfl⟩ : ∃ f', f = f' + 1 := ⟨f - 1, by omega⟩
            rw [writeAll_retry env fd buffer f' written s e hlt hwr he]
            exact hrun f' (by omega)
          · rw [htr]; simp [Sys.afterWrite]
          · simp only [acceptedBytes, hacc]
          · simp only [List.foldl_cons, chunkStep]
            exact hch
    · -- nothing outstanding: the loop condition fails at once
      have hr0 : r = 0 := by omega
      refine ⟨1, s, [], ?_, by simp, ?_, ?_, rfl, rfl⟩
      · intro f hf
        obtain ⟨f', rfl⟩ : ∃ f', f = f' + 1 := ⟨f - 1, by omega⟩
        exact writeAll_done env fd buffer f' written s hlt
      · simp only [acceptedBytes]
        exact (List.drop_eq_nil_of_le (by omega)).symm
      · simp [hr0]

/-! ## The read loop drains the chunks and echoes each of them -/

theorem handleClient_drains (env : Env) (fd : Int) (h : WritesRecover env) :
    ∀ (k : Nat) (srv : EchoServer) (s : Sys),
      (∀ i, i < k → (env.reads (s.nRead + i)).isData = true) →
      (env.reads (s.nRead + k)).isData = false →
      ∃ F srv' s' tr, (∀ f, F ≤ f → handleClient env fd f srv s = some (srv', s')) ∧
        s'.trace = s.trace ++ tr ∧ acceptedBytes tr = chunksBefore env s.nRead k ∧
        tr.foldl chunkStep (some 0) = some 0 ∧ s'.nRead = s.nRead + k + 1 := by
  intro k
  induction k with
  | zero =>
    intro srv s _ hstop
    rw [Nat.add_zero] at hstop
    cases hr : env.reads s.nRead with
    | ok buffer =>
      have h0 : buffer.length = 0 := by
        rw [hr] at hstop
        simpa [ReadResult.isData] using hstop
      refine ⟨1, srv, closeClient fd (s.afterRead fd (ReadResult.ok buffer)),
        [Call.read fd (ReadResult.ok buffer), Call.epollDel fd, Call.close fd], ?_, ?_, ?_, ?_, ?_⟩
      · intro f hf
        obtain ⟨f', rfl⟩ : ∃ f', f = f' + 1 := ⟨f - 1, by omega⟩
        exact handleClient_eof env fd f' srv s buffer hr h0
      · simp [closeClient, Sys.afterClose, Sys.afterEpollDel, Sys.afterRead]
      · simp [acceptedBytes, chunksBefore]
      · simp [chunkStep, h0]
      · simp [closeClient, Sys.afterClose, Sys.afterEpollDel, Sys.afterRead]
    | fail e =>
      cases he : wouldBlock e with
      | true =>
        refine ⟨1, srv, s.afterRead fd (ReadResult.fail e),
          [Call.read fd (ReadResult.fail e)], ?_, ?_, ?_, ?_, ?_⟩
        · intro f hf
          obtain ⟨f', rfl⟩ : ∃ f', f = f' + 1 := ⟨f - 1, by omega⟩
          exact handleClient_wouldBlock env fd f' srv s e hr he
        · simp [Sys.afterRead]
        · simp [acceptedBytes, chunksBefore]
        · simp [chunkStep]
        · simp [Sys.afterRead]
      | false =>
        refine ⟨1, srv, closeClient fd (s.afterRead fd (ReadResult.fail e)),
          [Call.read fd (ReadResult.fail e), Call.epollDel fd, Call.close fd],
          ?_, ?_, ?_, ?_, ?_⟩
        · intro f hf
          obtain ⟨f', rfl⟩ : ∃ f', f = f' + 1 := ⟨f - 1, by omega⟩
          exact handleClient_readError env fd f' srv s e hr he
        · simp [closeClient, Sys.afterClose, Sys.afterEpollDel, Sys.afterRead]
        · simp [acceptedBytes, chunksBefore]
        · simp [chunkStep]
        · simp [closeClient, Sys.afterClose, Sys.afterEpollDel, Sys.afterRead]
  | succ k ih =>
    intro srv s hdata hstop
    have hfirst := hdata 0 (by omega)
    rw [Nat.add_zero] at hfirst
    cases hr : env.reads s.nRead with
    | fail e => rw [hr] at hfirst; simp [ReadResult.isData] at hfirst
    | ok buffer =>
      have h0 : 0 < buffer.length := by
        rw [hr] at hfirst
        simpa [ReadResult.isData] using hfirst
      obtain ⟨F1, s2, ws, hrun1, htr1, hacc1, hch1, hnr1, _⟩ :=
        writeAll_completes env fd buffer h buffer.length 0
          (s.afterRead fd (ReadResult.ok buffer)) (by omega) (by omega)
      have hnr2 : s2.nRead = s.nRead + 1 := by rw [hnr1]; simp [Sys.afterRead]
      have hshift : ∀ (t : Sys), t.nRead = s.nRead + 1 →
          (∀ i, i < k → (env.reads (t.nRead + i)).isData = true) ∧
          (env.reads (t.nRead + k)).isData = false := by
        intro t ht
        constructor
        · intro i hi
          have := hdata (i + 1) (by omega)
          rw [ht]
          rwa [show s.nRead + (i + 1) = s.nRead + 1 + i by omega] at this
        · rw [ht]
          rwa [show s.nRead + (k + 1) = s.nRead + 1 + k by omega] at hstop
      cases ht : srv.has_traffic with
      | true =>
        obtain ⟨hd, hs⟩ := hshift s2 hnr2
        obtain ⟨F2, srv', s', tr, hrun2, htr2, hacc2, hch2, hnr'⟩ :=
          ih (srv.count buffer.length) s2 hd hs
        refine ⟨max F1 F2 + 1, srv', s',
          Call.read fd (ReadResult.ok buffer) :: (ws ++ tr), ?_, ?_, ?_, ?_, ?_⟩
        · intro f hf
          obtain ⟨f', rfl⟩ : ∃ f', f = f' + 1 := ⟨f - 1, by omega⟩
          have hf1 : F1 ≤ f' := by have := le_max_left F1 F2; omega
          have hf2 : F2 ≤ f' := by have := le_max_right F1 F2; omega
          rw [handleClient_echoed env fd f' srv s s2 buffer hr h0 (hrun1 f' hf1) ht]
          exact hrun2 f' hf2
        · rw [htr2, htr1]; simp [Sys.afterRead]
        · simp only [acceptedBytes, acceptedBytes_append, hacc1, hacc2, chunksBefore, hr,
            ReadResult.chunk, List.drop_zero, hnr2]
        · simp only [List.foldl_cons, List.foldl_append, chunkStep, if_true, hch1, hch2]
        · rw [hnr', hnr2]; omega
      | false =>
        have hnr3 : (s2.afterTime (env.times s2.nTime)).nRead = s.nRead + 1 := by
          simp [Sys.afterTime, hnr2]
        obtain ⟨hd, hs⟩ := hshift _ hnr3
        obtain ⟨F2, srv', s', tr, hrun2, htr2, hacc2, hch2, hnr'⟩ :=
          ih { srv.count buffer.length with
                first_message_time := env.times s2.nTime, has_traffic := true }
            (s2.afterTime (env.times s2.nTime)) hd hs
        refine ⟨max F1 F2 + 1, srv', s',
          Call.read fd (ReadResult.ok buffer) :: (ws ++ Call.time (env.times s2.nTime) :: tr),
          ?_, ?_, ?_, ?_, ?_⟩
        · intro f hf
          obtain ⟨f', rfl⟩ : ∃ f', f = f' + 1 := ⟨f - 1, by omega⟩
          have hf1 : F1 ≤ f' := by have := le_max_left F1 F2; omega
          have hf2 : F2 ≤ f' := by have := le_max_right F1 F2; omega
          rw [handleClient_first env fd f' srv s s2 buffer hr h0 (hrun1 f' hf1) ht]
          exact hrun2 f' hf2
        · rw [htr2]; simp [Sys.afterTime, htr1, Sys.afterRead]
        · simp only [acceptedBytes, acceptedBytes_append, hacc1, hacc2, chunksBefore, hr,
            ReadResult.chunk, List.drop_zero, hnr3]
        · simp only [List.foldl_cons, List.foldl_append, chunkStep, if_true, hch1, hch2]
        · rw [hnr', hnr3]; omega

theorem demoEnv_recovers : WritesRecover demoEnv := by
  refine ⟨?_, ?_, ?_⟩
  · intro i c w hc hw
    simp only [demoEnv] at hw
    split at hw
    · cases hw
    · injection hw with hw
      omega
  · intro i c e _ hw
    simp only [demoEnv] at hw
    split at hw
    · injection hw with hw
      subst hw
      decide
    · cases hw
  · intro i
    refine ⟨2 * i + 1, by omega, fun c _ => ⟨min c 2, ?_⟩⟩
    have : (2 * i + 1) % 2 ≠ 0 := by omega
    simp [demoEnv, this]

/-- C1. Byte-identical echo: when the script's writes respect the kernel
contract (a count between 1 and the bytes asked for), never fail with an
unrecoverable error and every run of would-block results ends, and the first
`k` reads return chunks while the next read returns 0, would-block or an error,
then `handleClient` returns (for every fuel from some bound on); the bytes
accepted by its write calls, in call order, are exactly the `k` chunks
concatenated; every chunk is written back completely and exactly before the
next read is issued; and exactly `k + 1` reads are issued. -/
theorem handleClient_echoes_bytes (env : Env) (client_fd : Int) (srv : EchoServer) (s : Sys)
    (k : Nat) (hwrites : WritesRecover env)
    (hdata : ∀ i, i < k → (env.reads (s.nRead + i)).isData = true)
    (hstop : (env.reads (s.nRead + k)).isData = false) :
    ∃ F srv' s' tr,
      (∀ f, F ≤ f → handleClient env client_fd f srv s = some (srv', s')) ∧
      s'.trace = s.trace ++ tr ∧
      acceptedBytes tr = chunksBefore env s.nRead k ∧
      chunksComplete tr = true ∧
      s'.nRead = s.nRead + k + 1 := by
  obtain ⟨F, srv', s', tr, hrun, htr, hacc, hch, hnr⟩ :=
    handleClient_drains env client_fd hwrites k srv s hdata hstop
  exact ⟨F, srv', s', tr, hrun, htr, hacc, by simp [chunksComplete, hch], hnr⟩

/-- The echo theorem at `demoEnv`: the five bytes of the two chunks come back
in order. -/
theorem handleClient_echoes_bytes_witness :
    WritesRecover demoEnv ∧
    (∀ i, i < 2 → (demoEnv.reads (Sys.init.nRead + i)).isData = true) ∧
    (demoEnv.reads (Sys.init.nRead + 2)).isData = false ∧
    ∃ F srv' s' tr,
      (∀ f, F ≤ f → handleClient demoEnv 7 f (EchoServer.new 8888 1000) Sys.init
        = some (srv', s')) ∧
      s'.trace = Sys.init.trace ++ tr ∧
      acceptedBytes tr = chunksBefore demoEnv Sys.init.nRead 2 ∧
      chunksComplete tr = true ∧
      s'.nRead = Sys.init.nRead + 2 + 1 :=
  have h1 : ∀ i, i < 2 → (demoEnv.reads (Sys.init.nRead + i)).isData = true := by
    intro i hi
    interval_cases i <;> decide
  have h2 : (demoEnv.reads (Sys.init.nRead + 2)).isData = false := by decide
  ⟨demoEnv_recovers, h1, h2,
    handleClient_echoes_bytes demoEnv 7 (EchoServer.new 8888 1000) Sys.init 2
      demoEnv_recovers h1 h2⟩


/-! ## Counter accounting -/

/-- The scan of the write-back loop's trace: a loop that ends normally completes
the chunk, a loop that ends in a write error completes nothing. -/
theorem writeAll_scan (env : Env) (fd : Int) (buffer : List Byte) :
    ∀ (f written : Nat) (s : Sys) (b : Bool) (s' : Sys),
      writeAll env fd buffer f written s = some (b, s') → written < buffer.length →
      ∃ ws, s'.trace = s.trace ++ ws ∧ s'.nTime = s.nTime ∧
        ∀ acc, ∃ p, ws.foldl echoStep (some (buffer.length, written), acc)
          = if b then (none, acc ++ [buffer.length]) else (p, acc) := by
  intro f
  induction f with
  | zero => intro written s b s' h; simp [writeAll] at h
  | succ f ih =>
    intro written s b s' h hlt
    cases hwr : env.writes s.nWrite (buffer.length - written) with
    | ok w =>
      rw [writeAll_ok env fd buffer f written w s hlt hwr] at h
      by_cases hfin : buffer.length ≤ written + w
      · -- this write completes the chunk; the loop condition then fails
        cases f with
        | zero => simp [writeAll] at h
        | succ f' =>
          rw [writeAll_done env fd buffer f' (written + w) _ (by omega)] at h
          injection h with h
          injection h with hb hs
          subst hb; subst hs
          refine ⟨[Call.write fd (buffer.drop written) (WriteResult.ok w)], ?_, ?_, ?_⟩
          · simp [Sys.afterWrite]
          · simp [Sys.afterWrite]
          · intro acc
            exact ⟨none, by simp [echoStep, hfin]⟩
      · obtain ⟨ws, htr, hnt, hscan⟩ := ih (written + w) _ b s' h (by omega)
        refine ⟨Call.write fd (buffer.drop written) (WriteResult.ok w) :: ws, ?_, ?_, ?_⟩
        · rw [htr]; simp [Sys.afterWrite]
        · rw [hnt]; simp [Sys.afterWrite]
        · intro acc
          obtain ⟨p, hp⟩ := hscan acc
          exact ⟨p, by simp only [List.foldl_cons, echoStep, hfin, if_false]; exact hp⟩
    | fail e =>
      cases he : wouldBlock e with
      | true =>
        rw [writeAll_retry env fd buffer f written s e hlt hwr he] at h
        obtain ⟨ws, htr, hnt, hscan⟩ := ih written _ b s' h hlt
        refine ⟨Call.write fd (buffer.drop written) (WriteResult.fail e) :: ws, ?_, ?_, ?_⟩
        · rw [htr]; simp [Sys.afterWrite]
        · rw [hnt]; simp [Sys.afterWrite]
        · intro acc
          obtain ⟨p, hp⟩ := hscan acc
          exact ⟨p, by simp only [List.foldl_cons, echoStep]; exact hp⟩
      | false =>
        rw [writeAll_error env fd buffer f written s e hlt hwr he] at h
        injection h with h
        injection h with hb hs
        subst hb; subst hs
        refine ⟨[Call.write fd (buffer.drop written) (WriteResult.fail e)], ?_, ?_, ?_⟩
        · simp [Sys.afterWrite]
        · simp [Sys.afterWrite]
        · intro acc
          exact ⟨some (buffer.length, written), by simp [echoStep]⟩

theorem closeClient_nTime (fd : Int) (s : Sys) : (closeClient fd s).nTime = s.nTime := rfl

theorem closeClient_trace (fd : Int) (s : Sys) :
    (closeClient fd s).trace = s.trace ++ [Call.epollDel fd, Call.close fd] := by
  simp [closeClient, Sys.afterClose, Sys.afterEpollDel]

theorem handleClient_scan (env : Env) (fd : Int) :
    ∀ (f : Nat) (srv : EchoServer) (s : Sys) (srv' : EchoServer) (s' : Sys),
      handleClient env fd f srv s = some (srv', s') →
      ∃ tr L, ClientRun env srv srv' s s' tr L := by
  intro f
  induction f with
  | zero => intro srv s srv' s' h; simp [handleClient] at h
  | succ f ih =>
    intro srv s srv' s' h
    cases hr : env.reads s.nRead with
    | fail e =>
      cases he : wouldBlock e with
      | true =>
        rw [handleClient_wouldBlock env fd f srv s e hr he] at h
        injection h with h; injection h with h1 h2; subst h1; subst h2
        exact ⟨[Call.read fd (ReadResult.fail e)], [],
          { trace_eq := by simp [Sys.afterRead]
            scan := by intro p acc; simp [echoStep]
            messages := by simp
            bytes := by simp
            traffic := by simp
            first_time := by simp
            time_calls := by simp [Sys.afterRead]
            listen_fd := rfl, epoll_fd := rfl, port := rfl, start_time := rfl }⟩
      | false =>
        rw [handleClient_readError env fd f srv s e hr he] at h
        injection h with h; injection h with h1 h2; subst h1; subst h2
        exact ⟨[Call.read fd (ReadResult.fail e), Call.epollDel fd, Call.close fd], [],
          { trace_eq := by simp [closeClient_trace, Sys.afterRead]
            scan := by intro p acc; simp [echoStep]
            messages := by simp
            bytes := by simp
            traffic := by simp
            first_time := by simp
            time_calls := by simp [closeClient_nTime, Sys.afterRead]
            listen_fd := rfl, epoll_fd := rfl, port := rfl, start_time := rfl }⟩
    | ok buffer =>
      by_cases h0 : 0 < buffer.length
      · cases hwr : writeAll env fd buffer f 0 (s.afterRead fd (ReadResult.ok buffer)) with
        | none =>
          rw [handleClient_stuck env fd f srv s buffer hr h0 hwr] at h
          cases h
        | some res =>
          obtain ⟨b, s2⟩ := res
          obtain ⟨ws, htr, hnt, hscan⟩ := writeAll_scan env fd buffer f 0 _ b s2 hwr h0
          cases b with
          | false =>
            rw [handleClient_writeError env fd f srv s s2 buffer hr h0 hwr] at h
            injection h with h; injection h with h1 h2; subst h1; subst h2
            refine ⟨Call.read fd (ReadResult.ok buffer) :: (ws ++ [Call.epollDel fd, Call.close fd]),
              [], ?_⟩
            exact
              { trace_eq := by simp [closeClient_trace, htr, Sys.afterRead]
                scan := by
                  intro p acc
                  obtain ⟨q, hq⟩ := hscan acc
                  simp only [Bool.false_eq_true, if_false] at hq
                  simp [echoStep, ReadResult.chunk, h0, List.foldl_append, hq]
                messages := by simp
                bytes := by simp
                traffic := by simp
                first_time := by simp
                time_calls := by simp [closeClient_nTime, hnt, Sys.afterRead]
                listen_fd := rfl, epoll_fd := rfl, port := rfl, start_time := rfl }
          | true =>
            have hscan' : ∀ acc, ws.foldl echoStep (some (buffer.length, 0), acc)
                = (none, acc ++ [buffer.length]) := by
              intro acc
              obtain ⟨q, hq⟩ := hscan acc
              simpa using hq
            cases ht : srv.has_traffic with
            | true =>
              rw [handleClient_echoed env fd f srv s s2 buffer hr h0 hwr ht] at h
              obtain ⟨tr, L, hrun⟩ := ih _ _ _ _ h
              refine ⟨Call.read fd (ReadResult.ok buffer) :: (ws ++ tr), buffer.length :: L, ?_⟩
              have hc : (srv.count buffer.length).has_traffic = true := by
                simp [EchoServer.count, ht]
              exact
                { trace_eq := by rw [hrun.trace_eq, htr]; simp [Sys.afterRead]
                  scan := by
                    intro p acc
                    simp only [List.foldl_cons, List.foldl_append, echoStep, ReadResult.chunk, h0,
                      if_true, hscan', hrun.scan]
                    simp
                  messages := by
                    rw [hrun.messages]
                    simp only [EchoServer.count, List.length_cons, reduceCtorEq, if_false]
                    split <;> rename_i hL
                    · simp [hL]
                    · simp only [U64]; omega
                  bytes := by
                    rw [hrun.bytes]
                    simp only [EchoServer.count, List.sum_cons, reduceCtorEq, if_false]
                    split <;> rename_i hL
                    · simp [hL]
                    · simp only [U64]; omega
                  traffic := by rw [hrun.traffic, hc]; simp
                  first_time := by rw [hrun.first_time, hc]; simp [EchoServer.count, ht]
                  time_calls := by
                    rw [hrun.time_calls, hc, hnt]; simp [Sys.afterRead, ht]
                  listen_fd := by rw [hrun.listen_fd]; rfl
                  epoll_fd := by rw [hrun.epoll_fd]; rfl
                  port := by rw [hrun.port]; rfl
                  start_time := by rw [hrun.start_time]; rfl }
            | false =>
              rw [handleClient_first env fd f srv s s2 buffer hr h0 hwr ht] at h
              obtain ⟨tr, L, hrun⟩ := ih _ _ _ _ h
              refine ⟨Call.read fd (ReadResult.ok buffer) ::
                (ws ++ Call.time (env.times s2.nTime) :: tr), buffer.length :: L, ?_⟩
              exact
                { trace_eq := by
                    rw [hrun.trace_eq]; simp [Sys.afterTime, htr, Sys.afterRead]
                  scan := by
                    intro p acc
                    simp only [List.foldl_cons, List.foldl_append, echoStep, ReadResult.chunk, h0,
                      if_true, hscan', hrun.scan]
                    simp
                  messages := by
                    rw [hrun.messages]
                    simp only [EchoServer.count, List.length_cons, reduceCtorEq, if_false]
                    split <;> rename_i hL
                    · simp [hL]
                    · simp only [U64]; omega
                  bytes := by
                    rw [hrun.bytes]
                    simp only [EchoServer.count, List.sum_cons, reduceCtorEq, if_false]
                    split <;> rename_i hL
                    · simp [hL]
                    · simp only [U64]; omega
                  traffic := by rw [hrun.traffic]; simp
                  first_time := by
                    rw [hrun.first_time]; simp [ht, hnt, Sys.afterRead]
                  time_calls := by
                    rw [hrun.time_calls]; simp [ht, Sys.afterTime, hnt, Sys.afterRead]
                  listen_fd := by rw [hrun.listen_fd]; rfl
                  epoll_fd := by rw [hrun.epoll_fd]; rfl
                  port := by rw [hrun.port]; rfl
                  start_time := by rw [hrun.start_time]; rfl }
      · have h0' : buffer.length = 0 := by omega
        rw [handleClient_eof env fd f srv s buffer hr h0'] at h
        injection h with h; injection h with h1 h2; subst h1; subst h2
        exact ⟨[Call.read fd (ReadResult.ok buffer), Call.epollDel fd, Call.close fd], [],
          { trace_eq := by simp [closeClient_trace, Sys.afterRead]
            scan := by intro p acc; simp [echoStep, ReadResult.chunk, h0']
            messages := by simp
            bytes := by simp
            traffic := by simp
            first_time := by simp
            time_calls := by simp [closeClient_nTime, Sys.afterRead]
            listen_fd := rfl, epoll_fd := rfl, port := rfl, start_time := rfl }⟩


/-! ## C2: counter accounting -/

theorem echoedLengths_append_run (tr0 tr : List Call) (L : List Nat)
    (h : ∀ p acc, (tr.foldl echoStep (p, acc)).2 = acc ++ L) :
    echoedLengths (tr0 ++ tr) = echoedLengths tr0 ++ L := by
  unfold echoedLengths
  rw [List.foldl_append]
  exact h _ _

theorem sum_replicate_100_64 : (List.replicate 100 64).sum = 6400 := by decide

/-- C2. Counter accounting: for every run of `handleClient` that returns,
`total_bytes` grows by the sum of the lengths of the reads that were completely
written back and `total_messages` by their number, both modulo 2^64; reads that
end in a write error, read 0 bytes or fail are not among them.  The echoed reads
of the whole history are those before the run followed by those of the run, so
the accounting composes over sequences of runs.  From zero counters, 100
echoed reads of 64 bytes leave `total_bytes = 6400` and `total_messages = 100`. -/
theorem handleClient_counters (env : Env) (client_fd : Int) (fuel : Nat)
    (srv srv' : EchoServer) (s s' : Sys)
    (hrun : handleClient env client_fd fuel srv s = some (srv', s'))
    (hm : srv.total_messages < U64) (hb : srv.total_bytes < U64) :
    ∃ tr, s'.trace = s.trace ++ tr ∧
      srv'.total_bytes = (srv.total_bytes + (echoedLengths tr).sum) % U64 ∧
      srv'.total_messages = (srv.total_messages + (echoedLengths tr).length) % U64 ∧
      echoedLengths s'.trace = echoedLengths s.trace ++ echoedLengths tr ∧
      (srv.total_bytes = 0 → srv.total_messages = 0 →
        echoedLengths tr = List.replicate 100 64 →
        srv'.total_bytes = 6400 ∧ srv'.total_messages = 100) := by
  obtain ⟨tr, L, hr⟩ := handleClient_scan env client_fd fuel srv s srv' s' hrun
  have hL : echoedLengths tr = L := by
    have := hr.scan none []
    simpa [echoedLengths] using this
  have hbytes : srv'.total_bytes = (srv.total_bytes + L.sum) % U64 := by
    rw [hr.bytes]
    split <;> rename_i h0
    · subst h0
      simp [Nat.mod_eq_of_lt hb]
    · rfl
  have hmsgs : srv'.total_messages = (srv.total_messages + L.length) % U64 := by
    rw [hr.messages]
    split <;> rename_i h0
    · subst h0
      simp [Nat.mod_eq_of_lt hm]
    · rfl
  refine ⟨tr, hr.trace_eq, by rw [hL]; exact hbytes, by rw [hL]; exact hmsgs, ?_, ?_⟩
  · rw [hr.trace_eq, hL]
    exact echoedLengths_append_run s.trace tr L hr.scan
  · intro hb0 hm0 h100
    rw [hL] at h100
    rw [hbytes, hmsgs, hb0, hm0, h100, sum_replicate_100_64]
    simp [U64]

set_option maxRecDepth 100000 in
/-- The accounting theorem on the scenario of the specification: 100 messages
of 64 bytes, all echoed, from zero counters. -/
theorem handleClient_counters_witness :
    handleClient bulkEnv 7 102 bulkSrv0 Sys.init = some (bulkSrv, bulkSys) ∧
    bulkSrv0.total_messages < U64 ∧ bulkSrv0.total_bytes < U64 ∧
    bulkSrv.total_bytes = 6400 ∧ bulkSrv.total_messages = 100 ∧
    ∃ tr, bulkSys.trace = Sys.init.trace ++ tr ∧
      bulkSrv.total_bytes = (bulkSrv0.total_bytes + (echoedLengths tr).sum) % U64 ∧
      bulkSrv.total_messages = (bulkSrv0.total_messages + (echoedLengths tr).length) % U64 ∧
      echoedLengths bulkSys.trace = echoedLengths Sys.init.trace ++ echoedLengths tr ∧
      (bulkSrv0.total_bytes = 0 → bulkSrv0.total_messages = 0 →
        echoedLengths tr = List.replicate 100 64 →
        bulkSrv.total_bytes = 6400 ∧ bulkSrv.total_messages = 100) :=
  have hrun : handleClient bulkEnv 7 102 bulkSrv0 Sys.init = some (bulkSrv, bulkSys) := by rfl
  ⟨hrun, by decide, by decide, rfl, rfl,
    handleClient_counters bulkEnv 7 102 bulkSrv0 bulkSrv Sys.init bulkSys hrun
      (by decide) (by decide)⟩


/-! ## C3: connection teardown -/

theorem writeAll_shape (env : Env) (fd : Int) (buffer : List Byte) :
    ∀ (f written : Nat) (s : Sys) (b : Bool) (s' : Sys),
      writeAll env fd buffer f written s = some (b, s') →
      ∃ ws, s'.trace = s.trace ++ ws ∧ s.sameTables s' ∧
        (b = true → ws.all quiet = true) ∧
        (b = false → ∃ pre c, ws = pre ++ [c] ∧ fatal c = true ∧ pre.all quiet = true) := by
  intro f
  induction f with
  | zero => intro written s b s' h; simp [writeAll] at h
  | succ f ih =>
    intro written s b s' h
    by_cases hlt : written < buffer.length
    · cases hwr : env.writes s.nWrite (buffer.length - written) with
      | ok w =>
        rw [writeAll_ok env fd buffer f written w s hlt hwr] at h
        obtain ⟨ws, htr, htab, hq, hf⟩ := ih _ _ b s' h
        refine ⟨Call.write fd (buffer.drop written) (WriteResult.ok w) :: ws, ?_, htab, ?_, ?_⟩
        · rw [htr]; simp [Sys.afterWrite]
        · intro hb
          simp [quiet, fatal, hq hb]
        · intro hb
          obtain ⟨pre, c, hws, hc, hpre⟩ := hf hb
          exact ⟨Call.write fd (buffer.drop written) (WriteResult.ok w) :: pre, c,
            by simp [hws], hc, by simp [quiet, fatal, hpre]⟩
      | fail e =>
        cases he : wouldBlock e with
        | true =>
          rw [writeAll_retry env fd buffer f written s e hlt hwr he] at h
          obtain ⟨ws, htr, htab, hq, hf⟩ := ih _ _ b s' h
          refine ⟨Call.write fd (buffer.drop written) (WriteResult.fail e) :: ws,
            ?_, htab, ?_, ?_⟩
          · rw [htr]; simp [Sys.afterWrite]
          · intro hb
            simp [quiet, fatal, he, hq hb]
          · intro hb
            obtain ⟨pre, c, hws, hc, hpre⟩ := hf hb
            exact ⟨Call.write fd (buffer.drop written) (WriteResult.fail e) :: pre, c,
              by simp [hws], hc, by simp [quiet, fatal, he, hpre]⟩
        | false =>
          rw [writeAll_error env fd buffer f written s e hlt hwr he] at h
          injection h with h; injection h with h1 h2; subst h1; subst h2
          refine ⟨[Call.write fd (buffer.drop written) (WriteResult.fail e)], ?_,
            ⟨rfl, rfl, rfl⟩, ?_, ?_⟩
          · simp [Sys.afterWrite]
          · intro hb; cases hb
          · intro _
            exact ⟨[], _, rfl, by simp [fatal, he], rfl⟩
    · rw [writeAll_done env fd buffer f written s hlt] at h
      injection h with h; injection h with h1 h2; subst h1; subst h2
      exact ⟨[], by simp, ⟨rfl, rfl, rfl⟩, fun _ => rfl, fun hb => by cases hb⟩

theorem closeClient_closedIn (fd : Int) (s0 s : Sys) (h : s0.sameTables s) :
    s0.closedIn (closeClient fd s) fd := by
  obtain ⟨h1, h2, h3⟩ := h
  refine ⟨?_, ?_, ?_⟩
  · simp [closeClient, Sys.afterClose, Sys.afterEpollDel, h1]
  · simp [closeClient, Sys.afterClose, Sys.afterEpollDel, h2]
  · simp [closeClient, Sys.afterClose, Sys.afterEpollDel, h3]

theorem TeardownShape.prepend (fd : Int) (s s1 s' : Sys) (pre tr : List Call)
    (hpre : pre.all quiet = true) (htab : s.sameTables s1)
    (h : TeardownShape fd s1 s' tr) : TeardownShape fd s s' (pre ++ tr) := by
  obtain ⟨h1, h2, h3⟩ := htab
  rcases h with ⟨hq, g1, g2, g3⟩ | ⟨p, c, htr, hc, hp, g1, g2, g3⟩
  · left
    exact ⟨by rw [List.all_append, hpre, hq]; rfl, by rw [g1, h1], by rw [g2, h2], by rw [g3, h3]⟩
  · right
    exact ⟨pre ++ p, c, by rw [htr, List.append_assoc], hc,
      by rw [List.all_append, hpre, hp]; rfl, by rw [g1, h1], by rw [g2, h2], by rw [g3, h3]⟩

theorem handleClient_shape (env : Env) (fd : Int) :
    ∀ (f : Nat) (srv : EchoServer) (s : Sys) (srv' : EchoServer) (s' : Sys),
      handleClient env fd f srv s = some (srv', s') →
      ∃ tr, s'.trace = s.trace ++ tr ∧ TeardownShape fd s s' tr := by
  intro f
  induction f with
  | zero => intro srv s srv' s' h; simp [handleClient] at h
  | succ f ih =>
    intro srv s srv' s' h
    cases hr : env.reads s.nRead with
    | fail e =>
      cases he : wouldBlock e with
      | true =>
        rw [handleClient_wouldBlock env fd f srv s e hr he] at h
        injection h with h; injection h with h1 h2; subst h1; subst h2
        exact ⟨[Call.read fd (ReadResult.fail e)], by simp [Sys.afterRead],
          Or.inl ⟨by simp [quiet, fatal, he], rfl, rfl, rfl⟩⟩
      | false =>
        rw [handleClient_readError env fd f srv s e hr he] at h
        injection h with h; injection h with h1 h2; subst h1; subst h2
        exact ⟨[Call.read fd (ReadResult.fail e), Call.epollDel fd, Call.close fd],
          by simp [closeClient_trace, Sys.afterRead],
          Or.inr ⟨[], _, rfl, by simp [fatal, he], rfl,
            closeClient_closedIn fd s _ ⟨rfl, rfl, rfl⟩⟩⟩
    | ok buffer =>
      by_cases h0 : 0 < buffer.length
      · have hread : [Call.read fd (ReadResult.ok buffer)].all quiet = true := by
          have : buffer.length ≠ 0 := by omega
          simp [quiet, fatal, this]
        cases hwr : writeAll env fd buffer f 0 (s.afterRead fd (ReadResult.ok buffer)) with
        | none =>
          rw [handleClient_stuck env fd f srv s buffer hr h0 hwr] at h
          cases h
        | some res =>
          obtain ⟨b, s2⟩ := res
          obtain ⟨ws, htr, htab, hq, hf⟩ := writeAll_shape env fd buffer f 0 _ b s2 hwr
          have htab' : s.sameTables s2 := htab
          cases b with
          | false =>
            rw [handleClient_writeError env fd f srv s s2 buffer hr h0 hwr] at h
            injection h with h; injection h with h1 h2; subst h1; subst h2
            obtain ⟨pre, c, hws, hc, hpre⟩ := hf rfl
            refine ⟨Call.read fd (ReadResult.ok buffer) ::
              (pre ++ [c, Call.epollDel fd, Call.close fd]), ?_, Or.inr ?_⟩
            · simp [closeClient_trace, htr, hws, Sys.afterRead]
            · exact ⟨Call.read fd (ReadResult.ok buffer) :: pre, c, by simp, hc,
                by
                  have := hread
                  simp only [List.all_cons, List.all_nil, Bool.and_true] at this
                  simp [this, hpre],
                closeClient_closedIn fd s s2 htab'⟩
          | true =>
            have hws : ([Call.read fd (ReadResult.ok buffer)] ++ ws).all quiet = true := by
              rw [List.all_append, hread, hq rfl]; rfl
            cases ht : srv.has_traffic with
            | true =>
              rw [handleClient_echoed env fd f srv s s2 buffer hr h0 hwr ht] at h
              obtain ⟨tr, htr2, hshape⟩ := ih _ _ _ _ h
              refine ⟨([Call.read fd (ReadResult.ok buffer)] ++ ws) ++ tr, ?_, ?_⟩
              · rw [htr2, htr]; simp [Sys.afterRead]
              · exact TeardownShape.prepend fd s s2 s' _ tr hws htab' hshape
            | false =>
              rw [handleClient_first env fd f srv s s2 buffer hr h0 hwr ht] at h
              obtain ⟨tr, htr2, hshape⟩ := ih _ _ _ _ h
              refine ⟨([Call.read fd (ReadResult.ok buffer)] ++ ws ++
                [Call.time (env.times s2.nTime)]) ++ tr, ?_, ?_⟩
              · rw [htr2]; simp [Sys.afterTime, htr, Sys.afterRead]
              · refine TeardownShape.prepend fd s (s2.afterTime (env.times s2.nTime)) s' _ tr
                  ?_ htab' hshape
                rw [List.all_append, hws]; rfl
      · have h0' : buffer.length = 0 := by omega
        rw [handleClient_eof env fd f srv s buffer hr h0'] at h
        injection h with h; injection h with h1 h2; subst h1; subst h2
        exact ⟨[Call.read fd (ReadResult.ok buffer), Call.epollDel fd, Call.close fd],
          by simp [closeClient_trace, Sys.afterRead],
          Or.inr ⟨[], _, rfl, by simp [fatal, h0'], rfl,
            closeClient_closedIn fd s _ ⟨rfl, rfl, rfl⟩⟩⟩

theorem quiet_count_close (fd : Int) (pre : List Call) (h : pre.all quiet = true) :
    pre.count (Call.close fd) = 0 := by
  rw [List.count_eq_zero]
  intro hmem
  have := List.all_eq_true.mp h _ hmem
  simp [quiet] at this

theorem quiet_count_epollDel (fd : Int) (pre : List Call) (h : pre.all quiet = true) :
    pre.count (Call.epollDel fd) = 0 := by
  rw [List.count_eq_zero]
  intro hmem
  have := List.all_eq_true.mp h _ hmem
  simp [quiet] at this

theorem quiet_not_fatal (c : Call) (h : quiet c = true) : fatal c = false := by
  cases c <;> simp_all [quiet, fatal]

theorem fatal_ne_close (c : Call) (fd : Int) (h : fatal c = true) :
    c ≠ Call.close fd ∧ c ≠ Call.epollDel fd := by
  constructor <;> (intro hc; subst hc; simp [fatal] at h)

theorem handleEvents_client (env : Env) (fuel : Nat) (fd : Int) (rest : List Int)
    (srv srv' : EchoServer) (s s' : Sys) (hfd : fd ≠ srv.listen_fd)
    (h : handleClient env fd fuel srv s = some (srv', s')) :
    handleEvents env fuel (fd :: rest) srv s = handleEvents env fuel rest srv' s' := by
  simp [handleEvents, hfd, h]

/-- C3. Connection teardown is connection-scoped.  (1) A read on `client_fd`
that returns 0 or fails with an error other than would-block makes
`handleClient` return at once, after `closeClient`.  (2) A write that fails with
such an error ends the write loop at once, and `handleClient` then returns
after `closeClient`.  (3) In every returning run: a fatal outcome is followed by
exactly the deregistration and the close of `client_fd` and by no other call,
`client_fd` is closed exactly once and ends closed and unregistered; without a
fatal outcome nothing is closed or deregistered; the tables of every other
descriptor (the listener included) are unchanged; and the `for` loop of the
server goes on with the remaining ready descriptors. -/
theorem handleClient_teardown (env : Env) (client_fd : Int) :
    (∀ (f : Nat) (srv : EchoServer) (s : Sys),
      fatal (Call.read client_fd (env.reads s.nRead)) = true →
      handleClient env client_fd (f + 1) srv s =
        some (srv, closeClient client_fd (s.afterRead client_fd (env.reads s.nRead)))) ∧
    (∀ (f : Nat) (buffer : List Byte) (written : Nat) (s : Sys) (e : Int),
      written < buffer.length →
      env.writes s.nWrite (buffer.length - written) = WriteResult.fail e →
      wouldBlock e = false →
      writeAll env client_fd buffer (f + 1) written s =
        some (false, s.afterWrite client_fd (buffer.drop written) (WriteResult.fail e))) ∧
    (∀ (f : Nat) (srv : EchoServer) (s s2 : Sys) (buffer : List Byte),
      env.reads s.nRead = ReadResult.ok buffer → 0 < buffer.length →
      writeAll env client_fd buffer f 0 (s.afterRead client_fd (ReadResult.ok buffer))
        = some (false, s2) →
      handleClient env client_fd (f + 1) srv s = some (srv, closeClient client_fd s2)) ∧
    (∀ (fuel : Nat) (srv srv' : EchoServer) (s s' : Sys),
      handleClient env client_fd fuel srv s = some (srv', s') →
      ∃ tr, s'.trace = s.trace ++ tr ∧
        (∀ c, c ∈ tr → fatal c = true →
          ∃ pre, tr = pre ++ [c, Call.epollDel client_fd, Call.close client_fd] ∧
            pre.all quiet = true ∧
            tr.count (Call.close client_fd) = 1 ∧ tr.count (Call.epollDel client_fd) = 1 ∧
            s'.isOpen client_fd = false ∧ s'.registered client_fd = none) ∧
        ((∀ c, c ∈ tr → fatal c = false) → tr.all quiet = true ∧ s.sameTables s') ∧
        (∀ fd, fd ≠ client_fd →
          s'.isOpen fd = s.isOpen fd ∧ s'.registered fd = s.registered fd ∧
          s'.nonblocking fd = s.nonblocking fd) ∧
        (client_fd ≠ srv.listen_fd → ∀ rest,
          handleEvents env fuel (client_fd :: rest) srv s
            = handleEvents env fuel rest srv' s')) := by
  refine ⟨?_, ?_, ?_, ?_⟩
  · intro f srv s hf
    cases hr : env.reads s.nRead with
    | ok d =>
      rw [hr] at hf
      exact handleClient_eof env client_fd f srv s d hr (by simpa [fatal] using hf)
    | fail e =>
      rw [hr] at hf
      exact handleClient_readError env client_fd f srv s e hr (by simpa [fatal] using hf)
  · intro f buffer written s e hlt hwr he
    exact writeAll_error env client_fd buffer f written s e hlt hwr he
  · intro f srv s s2 buffer hr h0 hwr
    exact handleClient_writeError env client_fd f srv s s2 buffer hr h0 hwr
  · intro fuel srv srv' s s' hrun
    obtain ⟨tr, htr, hshape⟩ := handleClient_shape env client_fd fuel srv s srv' s' hrun
    refine ⟨tr, htr, ?_, ?_, ?_, ?_⟩
    · intro c hc hfat
      rcases hshape with ⟨hq, _⟩ | ⟨pre, c0, hshape, hc0, hpre, g1, g2, _⟩
      · have := quiet_not_fatal c (List.all_eq_true.mp hq c hc)
        rw [this] at hfat
        cases hfat
      · have hcc : c = c0 := by
          rw [hshape] at hc
          simp only [List.mem_append, List.mem_cons, List.mem_singleton, List.not_mem_nil,
            or_false] at hc
          rcases hc with hc | hc | hc | hc
          · have := quiet_not_fatal c (List.all_eq_true.mp hpre c hc)
            rw [this] at hfat
            cases hfat
          · exact hc
          · subst hc; simp [fatal] at hfat
          · subst hc; simp [fatal] at hfat
        subst hcc
        obtain ⟨hne1, hne2⟩ := fatal_ne_close c client_fd hc0
        refine ⟨pre, hshape, hpre, ?_, ?_, ?_, ?_⟩
        · rw [hshape, List.count_append, quiet_count_close client_fd pre hpre]
          simp [List.count_cons, hne1]
        · rw [hshape, List.count_append, quiet_count_epollDel client_fd pre hpre]
          simp [List.count_cons, hne2]
        · rw [g1]; simp
        · rw [g2]; simp
    · intro hnone
      rcases hshape with ⟨hq, htab⟩ | ⟨pre, c0, hshape, hc0, _, _⟩
      · exact ⟨hq, htab⟩
      · have := hnone c0 (by rw [hshape]; simp)
        rw [this] at hc0
        cases hc0
    · intro fd hfd
      rcases hshape with ⟨_, g1, g2, g3⟩ | ⟨_, _, _, _, _, g1, g2, g3⟩
      · rw [g1, g2, g3]; exact ⟨rfl, rfl, rfl⟩
      · rw [g1, g2, g3]
        simp [Function.update_noteq hfd]
    · intro hne rest
      exact handleEvents_client env fuel client_fd rest srv srv' s s' hne hrun

/-- The teardown theorem on `closingEnv`: after one echoed chunk the peer
closes, descriptor 7 is deregistered and closed once, and the listener 3 and
the client 8 keep their state. -/
theorem handleClient_teardown_witness :
    handleClient closingEnv 7 5 servingSrv servingSys = some (closedSrv, closedSys) ∧
    fatal (Call.read 7 (ReadResult.ok [])) = true ∧
    closedSys.trace = servingSys.trace ++ closingTrace ∧
    (∃ pre, closingTrace = pre ++ [Call.read 7 (ReadResult.ok []), Call.epollDel 7, Call.close 7] ∧
      pre.all quiet = true ∧
      closingTrace.count (Call.close 7) = 1 ∧ closingTrace.count (Call.epollDel 7) = 1 ∧
      closedSys.isOpen 7 = false ∧ closedSys.registered 7 = none) ∧
    (closedSys.isOpen 8 = servingSys.isOpen 8 ∧ closedSys.registered 8 = servingSys.registered 8 ∧
      closedSys.nonblocking 8 = servingSys.nonblocking 8) ∧
    (closedSys.isOpen 3 = servingSys.isOpen 3 ∧ closedSys.registered 3 = servingSys.registered 3 ∧
      closedSys.nonblocking 3 = servingSys.nonblocking 3) ∧
    handleEvents closingEnv 5 [7, 8] servingSrv servingSys
      = handleEvents closingEnv 5 [8] closedSrv closedSys := by
  have hrun : handleClient closingEnv 7 5 servingSrv servingSys
      = some (closedSrv, closedSys) := by rfl
  have hfat : fatal (Call.read 7 (ReadResult.ok [])) = true := by decide
  obtain ⟨tr, htr, h1, _, h3, h4⟩ :=
    (handleClient_teardown closingEnv 7).2.2.2 5 servingSrv closedSrv servingSys closedSys hrun
  have htr' : tr = closingTrace := by
    have : closedSys.trace = closingTrace := rfl
    rw [this] at htr
    simpa [servingSys, Sys.init] using htr.symm
  subst htr'
  exact ⟨hrun, hfat, htr, h1 _ (by simp [closingTrace]) hfat, h3 8 (by decide),
    h3 3 (by decide), h4 (by decide) [8]⟩


/-! ## C4: the server's port argument -/

/-- C4 as stated fails: `80abc` is not a port number, yet `atoi` reads it as 80
and `main` starts the server on port 80, creating the socket and binding it;
`4294967297` is a number outside [1, 65535], yet glibc's `atoi` keeps its low
32 bits and `main` starts the server on port 1.  So it is not the case that
`main` serves port `p` exactly when the argument is a port number `p`. -/
theorem main_serves_malformed_port :
    isPortNumber "80abc" 80 = false ∧
    main atoi ["echo_server", "80abc"] = MainOutcome.serve 80 ∧
    (runMain atoi ["echo_server", "80abc"] waitErrorEnv 1 Sys.init).map
        (fun r => (r.1, r.2.trace))
      = some (0, [Call.time 1000, Call.socket 3, Call.setsockopt 3 0, Call.bind 3 80 0,
          Call.listen 3 0, Call.fcntlGet 3 0, Call.fcntlSet 3 0, Call.epollCreate 4,
          Call.epollAdd 3 EPOLLIN 0, Call.time 1001, Call.epollWait (WaitResult.fail EBADF),
          Call.close 3, Call.close 4]) ∧
    isPortNumber "4294967297" 1 = false ∧
    main atoi ["echo_server", "4294967297"] = MainOutcome.serve 1 ∧
    ¬ (∀ (arg : String) (p : Int),
        main atoi ["echo_server", arg] = MainOutcome.serve p ↔ isPortNumber arg p = true) := by
  refine ⟨by decide, by decide, by decide, by decide, by decide, ?_⟩
  intro h
  have h1 : main atoi ["echo_server", "80abc"] = MainOutcome.serve 80 := by decide
  have h2 := (h "80abc" 80).mp h1
  revert h2
  decide

/-- C4, amended. The server's `main` reads its first argument with the C
library's `atoi` (for every behaviour of that function): with no argument it
starts the server on port 8888; with a first argument it starts the server on
port `p` exactly when `atoi` of the argument is `p` and `p` is in [1, 65535];
when `atoi` of the argument is outside [1, 65535] it prints "Invalid port
number" and returns 1, and the process makes no system call at all (so creates
no socket).  When the server is started, the process returns what `start()`
returns and the destructor closes the two descriptors. -/
theorem main_port_validation (atoi : String → Int) (prog arg : String) (rest : List String)
    (p : Int) :
    main atoi [prog] = MainOutcome.serve 8888 ∧
    (main atoi (prog :: arg :: rest) = MainOutcome.serve p ↔
      atoi arg = p ∧ 1 ≤ p ∧ p ≤ 65535) ∧
    (¬ (1 ≤ atoi arg ∧ atoi arg ≤ 65535) →
      main atoi (prog :: arg :: rest) = MainOutcome.exit 1 "Invalid port number" ∧
      ∀ env fuel s, runMain atoi (prog :: arg :: rest) env fuel s = some (1, s)) ∧
    ((1 ≤ atoi arg ∧ atoi arg ≤ 65535) →
      ∀ env fuel s, runMain atoi (prog :: arg :: rest) env fuel s =
        (start env fuel (EchoServer.new (atoi arg) (env.times s.nTime))
          (s.afterTime (env.times s.nTime))).map (fun r => (r.1, r.2.1.destructor r.2.2))) ∧
    (∀ env fuel s, runMain atoi [prog] env fuel s =
        (start env fuel (EchoServer.new 8888 (env.times s.nTime))
          (s.afterTime (env.times s.nTime))).map (fun r => (r.1, r.2.1.destructor r.2.2))) := by
  refine ⟨rfl, ?_, ?_, ?_, ?_⟩
  · by_cases h : atoi arg ≤ 0 ∨ atoi arg > 65535
    · simp only [main, h, if_true]
      constructor
      · intro hc; cases hc
      · rintro ⟨rfl, h1, h2⟩; omega
    · simp only [main, h, if_false]
      constructor
      · intro hc
        injection hc with hc
        exact ⟨hc, by omega, by omega⟩
      · rintro ⟨rfl, _, _⟩; rfl
  · intro hbad
    have h : atoi arg ≤ 0 ∨ atoi arg > 65535 := by omega
    exact ⟨by simp [main, h], fun env fuel s => by simp [runMain, main, h]⟩
  · intro hok env fuel s
    have h : ¬ (atoi arg ≤ 0 ∨ atoi arg > 65535) := by omega
    simp [runMain, main, h]
  · intro env fuel s
    simp [runMain, main, DEFAULT_PORT]

/-- The amended port theorem with glibc's `atoi` on the arguments `0`
(rejected, no system call), `9999` (accepted) and `80abc` (read as 80 and
accepted). -/
theorem main_port_validation_witness :
    ¬ (1 ≤ atoi "0" ∧ atoi "0" ≤ 65535) ∧
    main atoi ["echo_server", "0"] = MainOutcome.exit 1 "Invalid port number" ∧
    (∀ env fuel s, runMain atoi ["echo_server", "0"] env fuel s = some (1, s)) ∧
    (1 ≤ atoi "9999" ∧ atoi "9999" ≤ 65535) ∧
    main atoi ["echo_server", "9999"] = MainOutcome.serve 9999 ∧
    (atoi "80abc" = 80 ∧ (1 : Int) ≤ 80 ∧ (80 : Int) ≤ 65535) ∧
    main atoi ["echo_server", "80abc"] = MainOutcome.serve 80 :=
  have hbad : ¬ (1 ≤ atoi "0" ∧ atoi "0" ≤ 65535) := by decide
  have hok : 1 ≤ atoi "9999" ∧ atoi "9999" ≤ 65535 := by decide
  have h80 : atoi "80abc" = 80 ∧ (1 : Int) ≤ 80 ∧ (80 : Int) ≤ 65535 := by decide
  ⟨hbad,
    ((main_port_validation atoi "echo_server" "0" [] 0).2.2.1 hbad).1,
    ((main_port_validation atoi "echo_server" "0" [] 0).2.2.1 hbad).2,
    hok,
    ((main_port_validation atoi "echo_server" "9999" [] 9999).2.1).mpr
      ⟨by decide, by decide, by decide⟩,
    h80,
    ((main_port_validation atoi "echo_server" "80abc" [] 80).2.1).mpr h80⟩

/-! ## C5: the value returned by `start` -/

theorem eventLoop_interrupted (env : Env) (f : Nat) (last : Int) (srv : EchoServer) (s : Sys)
    (hw : env.waits s.nWait = WaitResult.fail EINTR) :
    eventLoop env (f + 1) last srv s
      = eventLoop env f last srv (s.afterWait (WaitResult.fail EINTR)) := by
  simp [eventLoop, hw]

theorem eventLoop_waitError (env : Env) (f : Nat) (last : Int) (srv : EchoServer) (s : Sys)
    (e : Int) (hw : env.waits s.nWait = WaitResult.fail e) (he : e ≠ EINTR) :
    eventLoop env (f + 1) last srv s = some (0, srv, s.afterWait (WaitResult.fail e)) := by
  simp [eventLoop, hw, he]

theorem eventLoop_stuck (env : Env) (f : Nat) (last : Int) (srv : EchoServer) (s : Sys)
    (fds : List Int) (hw : env.waits s.nWait = WaitResult.ready fds)
    (hev : handleEvents env f fds srv (s.afterWait (WaitResult.ready fds)) = none) :
    eventLoop env (f + 1) last srv s = none := by
  simp [eventLoop, hw, hev]

theorem eventLoop_ready (env : Env) (f : Nat) (last : Int) (srv srv1 : EchoServer) (s s1 : Sys)
    (fds : List Int) (hw : env.waits s.nWait = WaitResult.ready fds)
    (hev : handleEvents env f fds srv (s.afterWait (WaitResult.ready fds)) = some (srv1, s1)) :
    eventLoop env (f + 1) last srv s =
      if env.times s1.nTime - last ≥ 1 then
        eventLoop env f (env.times s1.nTime) srv1
          (printStats env srv1 (s1.afterTime (env.times s1.nTime)))
      else eventLoop env f last srv1 (s1.afterTime (env.times s1.nTime)) := by
  simp [eventLoop, hw, hev]

theorem eventLoop_status (env : Env) :
    ∀ (f : Nat) (last : Int) (srv : EchoServer) (s : Sys) (r : Int × EchoServer × Sys),
      eventLoop env f last srv s = some r →
      r.1 = 0 ∧ ∃ e, e ≠ EINTR ∧
        r.2.2.trace.getLast? = some (Call.epollWait (WaitResult.fail e)) := by
  intro f
  induction f with
  | zero => intro last srv s r h; simp [eventLoop] at h
  | succ f ih =>
    intro last srv s r h
    cases hw : env.waits s.nWait with
    | fail e =>
      by_cases he : e = EINTR
      · subst he
        rw [eventLoop_interrupted env f last srv s hw] at h
        exact ih _ _ _ _ h
      · rw [eventLoop_waitError env f last srv s e hw he] at h
        injection h with h
        subst h
        exact ⟨rfl, e, he, by simp [Sys.afterWait]⟩
    | ready fds =>
      cases hev : handleEvents env f fds srv (s.afterWait (WaitResult.ready fds)) with
      | none => rw [eventLoop_stuck env f last srv s fds hw hev] at h; cases h
      | some res =>
        obtain ⟨srv1, s1⟩ := res
        rw [eventLoop_ready env f last srv srv1 s s1 fds hw hev] at h
        split at h
        · exact ih _ _ _ _ h
        · exact ih _ _ _ _ h

/-- The parts of the claim about `start` that hold: whenever `start` returns,
it returns `-1` (a start-up step failed) or `0`, and it returns `0` only after
an `epoll_wait` that failed with an error other than `EINTR`. -/
theorem start_status (env : Env) (fuel : Nat) (srv : EchoServer) (s : Sys)
    (r : Int × EchoServer × Sys) (h : start env fuel srv s = some r) :
    r.1 = -1 ∨ (r.1 = 0 ∧ ∃ e, e ≠ EINTR ∧
      r.2.2.trace.getLast? = some (Call.epollWait (WaitResult.fail e))) := by
  unfold start at h
  simp only at h
  split at h
  · injection h with h; subst h; exact Or.inl rfl
  · split at h
    · injection h with h; subst h; exact Or.inl rfl
    · split at h
      · injection h with h; subst h; exact Or.inl rfl
      · exact Or.inr (eventLoop_status env _ _ _ _ _ h)

/-- C5 (the code departs from the claim). With a start-up that succeeds and a
first `epoll_wait` that fails with `EBADF`, `start` leaves the event loop and
returns 0; a wait interrupted by a signal is retried first, with the same
end. -/
theorem start_returns_zero_on_wait_error :
    (start waitErrorEnv 1 (EchoServer.new 8888 1000) Sys.init).map (fun r => r.1) = some 0 ∧
    (start interruptedEnv 2 (EchoServer.new 8888 1000) Sys.init).map (fun r => r.1) = some 0 ∧
    (start interruptedEnv 2 (EchoServer.new 8888 1000) Sys.init).map (fun r => r.2.2.trace)
      = some [Call.socket 3, Call.setsockopt 3 0, Call.bind 3 8888 0, Call.listen 3 0,
          Call.fcntlGet 3 0, Call.fcntlSet 3 0, Call.epollCreate 4, Call.epollAdd 3 EPOLLIN 0,
          Call.time 1000, Call.epollWait (WaitResult.fail EINTR),
          Call.epollWait (WaitResult.fail EBADF)] := by
  refine ⟨by decide, by decide, by decide⟩

/-! ## C6: the statistics report -/

/-- C6 as stated fails: in the state reached after the first echoed message
(`closedSrv`, first message at time 1000), a report made within the same second
prints no block at all. -/
theorem statsBlocks_same_second_prints_nothing :
    handleClient closingEnv 7 5 servingSrv servingSys = some (closedSrv, closedSys) ∧
    closedSrv.has_traffic = true ∧
    statsBlocks closedSrv 1000 = [] ∧
    ¬ (∀ (srv : EchoServer) (now : Int), (statsBlocks srv now).length = 1) := by
  refine ⟨by rfl, by decide, by decide, ?_⟩
  intro h
  have := h closedSrv 1000
  revert this
  decide

/-- C6, amended. Every invocation of `printStats` reads the clock once and
prints at most one block: the placeholder when `has_traffic` is false; when
`has_traffic` is true and `now > first_message_time`, the rates summary with
uptime `now - start_time`, active time `now - first_message_time`, messages/sec
`total_messages / active` and throughput `total_bytes / active / 1024` (KB/s);
and nothing when `has_traffic` is true and `now <= first_message_time`.  The
divisor of every block printed is positive, so nothing divides by zero. -/
theorem printStats_report (env : Env) (srv : EchoServer) (s : Sys) (now : Int) :
    (printStats env srv s).out = s.out ++ statsBlocks srv (env.times s.nTime) ∧
    (printStats env srv s).trace = s.trace ++ [Call.time (env.times s.nTime)] ∧
    (statsBlocks srv now).length ≤ 1 ∧
    (srv.has_traffic = false → statsBlocks srv now = [StatsBlock.waiting]) ∧
    (srv.has_traffic = true → srv.first_message_time < now →
      statsBlocks srv now =
        [StatsBlock.rates (now - srv.start_time) (now - srv.first_message_time)
          srv.total_messages srv.total_bytes
          ((srv.total_messages : ℚ) / ((now - srv.first_message_time : Int) : ℚ))
          ((srv.total_bytes : ℚ) / ((now - srv.first_message_time : Int) : ℚ) / 1024)]) ∧
    (srv.has_traffic = true → now ≤ srv.first_message_time → statsBlocks srv now = []) ∧
    (∀ b, b ∈ statsBlocks srv now → 0 < b.divisor) := by
  refine ⟨rfl, rfl, ?_, ?_, ?_, ?_, ?_⟩
  · unfold statsBlocks
    split
    · simp
    · simp only
      split <;> simp
  · intro h; simp [statsBlocks, h]
  · intro h hlt
    have : now - srv.first_message_time > 0 := by omega
    simp [statsBlocks, h, this]
  · intro h hle
    have : ¬ now - srv.first_message_time > 0 := by omega
    simp [statsBlocks, h, this]
  · intro b hb
    unfold statsBlocks at hb
    split at hb
    · simp at hb; subst hb; simp [StatsBlock.divisor]
    · simp only at hb
      split at hb
      · rename_i hpos
        simp at hb; subst hb
        simpa [StatsBlock.divisor] using hpos
      · simp at hb

/-- The amended report theorem on three states: no traffic yet, one second
after the first message, and the same second as the first message. -/
theorem printStats_report_witness :
    servingSrv.has_traffic = false ∧ statsBlocks servingSrv 1005 = [StatsBlock.waiting] ∧
    closedSrv.has_traffic = true ∧ closedSrv.first_message_time < 1002 ∧
    statsBlocks closedSrv 1002 = [StatsBlock.rates 2 2 1 2 (1 / 2) (1 / 1024)] ∧
    closedSrv.first_message_time ≥ 1000 ∧ statsBlocks closedSrv 1000 = [] :=
  have h0 : servingSrv.has_traffic = false := by decide
  have h1 : closedSrv.has_traffic = true := by decide
  have h2 : closedSrv.first_message_time < 1002 := by decide
  have h3 : (1000 : Int) ≤ closedSrv.first_message_time := by decide
  ⟨h0, (printStats_report demoEnv servingSrv Sys.init 1005).2.2.2.1 h0, h1, h2,
    by
      have := (printStats_report demoEnv closedSrv Sys.init 1002).2.2.2.2.1 h1 h2
      rw [this]
      simp only [closedSrv, servingSrv, EchoServer.new]
      norm_num,
    h3, (printStats_report demoEnv closedSrv Sys.init 1000).2.2.2.2.2.1 h1 h3⟩


/-! ## The accept loop: unfolding and trace -/

theorem handleAccept_stop (env : Env) (f : Nat) (s : Sys)
    (h : (env.accepts s.nAccept).1 = -1) :
    handleAccept env (f + 1) s = some (s.afterAccept (-1) (env.accepts s.nAccept).2) := by
  simp [handleAccept, h]

theorem handleAccept_next (env : Env) (f : Nat) (s : Sys)
    (h : (env.accepts s.nAccept).1 ≠ -1) :
    handleAccept env (f + 1) s =
      handleAccept env f
        (registerClient env (env.accepts s.nAccept).1
          (s.afterAccept (env.accepts s.nAccept).1 (env.accepts s.nAccept).2)).2 := by
  simp [handleAccept, h]

theorem setNonBlocking_trace (env : Env) (fd : Int) (s : Sys) :
    ∃ tr, (setNonBlocking env fd s).2.trace = s.trace ++ tr ∧ tr.all nonTransfer = true := by
  unfold setNonBlocking
  simp only
  split
  · exact ⟨[Call.fcntlGet fd (env.fcntls s.nFcntl)], by simp [Sys.afterFcntlGet], by simp [nonTransfer]⟩
  · split
    · exact ⟨[Call.fcntlGet fd (env.fcntls s.nFcntl),
          Call.fcntlSet fd (env.fcntls (s.nFcntl + 1))],
        by simp [Sys.afterFcntlGet, Sys.afterFcntlSet], by simp [nonTransfer]⟩
    · exact ⟨[Call.fcntlGet fd (env.fcntls s.nFcntl),
          Call.fcntlSet fd (env.fcntls (s.nFcntl + 1))],
        by simp [Sys.afterFcntlGet, Sys.afterFcntlSet], by simp [nonTransfer]⟩

theorem registerClient_trace (env : Env) (fd : Int) (s : Sys) :
    ∃ tr, (registerClient env fd s).2.trace = s.trace ++ tr ∧ tr.all nonTransfer = true := by
  obtain ⟨t1, h1, q1⟩ := setNonBlocking_trace env fd s
  unfold registerClient
  simp only
  split
  · exact ⟨t1 ++ [Call.close fd], by simp [Sys.afterClose, h1], by simp [q1, nonTransfer]⟩
  · split
    · exact ⟨t1 ++ [Call.epollAdd fd (EPOLLIN ||| EPOLLET)
          (env.ctls (setNonBlocking env fd s).2.nCtl), Call.close fd],
        by simp [Sys.afterClose, Sys.afterEpollAdd, h1], by simp [q1, nonTransfer]⟩
    · exact ⟨t1 ++ [Call.epollAdd fd (EPOLLIN ||| EPOLLET)
          (env.ctls (setNonBlocking env fd s).2.nCtl)],
        by simp [Sys.afterEpollAdd, h1], by simp [q1, nonTransfer]⟩

theorem handleAccept_trace (env : Env) :
    ∀ (f : Nat) (s s' : Sys), handleAccept env f s = some s' →
      ∃ tr, s'.trace = s.trace ++ tr ∧ tr.all nonTransfer = true := by
  intro f
  induction f with
  | zero => intro s s' h; simp [handleAccept] at h
  | succ f ih =>
    intro s s' h
    by_cases hfd : (env.accepts s.nAccept).1 = -1
    · rw [handleAccept_stop env f s hfd] at h
      injection h with h; subst h
      exact ⟨[Call.accept (-1) (env.accepts s.nAccept).2], by simp [Sys.afterAccept],
        by simp [nonTransfer]⟩
    · rw [handleAccept_next env f s hfd] at h
      obtain ⟨t1, h1, q1⟩ := registerClient_trace env (env.accepts s.nAccept).1
        (s.afterAccept (env.accepts s.nAccept).1 (env.accepts s.nAccept).2)
      obtain ⟨t2, h2, q2⟩ := ih _ _ h
      exact ⟨Call.accept (env.accepts s.nAccept).1 (env.accepts s.nAccept).2 :: (t1 ++ t2),
        by rw [h2, h1]; simp [Sys.afterAccept], by simp [nonTransfer, q1, q2]⟩

theorem echoScan_quietCalls (tr : List Call) (h : tr.all nonTransfer = true)
    (st : Option (Nat × Nat) × List Nat) : tr.foldl echoStep st = st := by
  induction tr generalizing st with
  | nil => rfl
  | cons c tr ih =>
    simp only [List.all_cons, Bool.and_eq_true] at h
    obtain ⟨hc, htr⟩ := h
    have : echoStep st c = st := by
      cases c <;> first | rfl | simp [nonTransfer] at hc
    simp only [List.foldl_cons, this]
    exact ih htr st

theorem echoedLengths_quietCalls (tr0 tr : List Call) (h : tr.all nonTransfer = true) :
    echoedLengths (tr0 ++ tr) = echoedLengths tr0 := by
  unfold echoedLengths
  rw [List.foldl_append, echoScan_quietCalls tr h]


/-! ## C7: the traffic flag -/

/-- The invariant of the statistics fields in terms of the echoes of the
history. -/
theorem reach_invariant (a : EchoServer × Sys) (h : Reach a) :
    (a.1.has_traffic = true ↔ 1 ≤ (echoedLengths a.2.trace).length) ∧
    a.1.total_messages = (echoedLengths a.2.trace).length % U64 ∧
    (a.1.has_traffic = false → a.1.first_message_time = 0) := by
  induction h with
  | init p now lfd efd s h0 => simp [EchoServer.new, h0]
  | step a b _ hstep ih =>
    obtain ⟨ih1, ih2, ih3⟩ := ih
    cases hstep with
    | accept env fuel srv s s' hrun =>
      obtain ⟨tr, htr, hq⟩ := handleAccept_trace env fuel s s' hrun
      simp only [htr, echoedLengths_quietCalls s.trace tr hq]
      exact ⟨ih1, ih2, ih3⟩
    | stats env srv s =>
      have htr : (printStats env srv s).trace = s.trace ++ [Call.time (env.times s.nTime)] := rfl
      have hq : [Call.time (env.times s.nTime)].all nonTransfer = true := by simp [nonTransfer]
      simp only [htr, echoedLengths_quietCalls s.trace _ hq]
      exact ⟨ih1, ih2, ih3⟩
    | client env fd fuel srv srv' s s' hrun =>
      obtain ⟨tr, L, hr⟩ := handleClient_scan env fd fuel srv s srv' s' hrun
      have hlen : echoedLengths s'.trace = echoedLengths s.trace ++ L := by
        rw [hr.trace_eq]
        exact echoedLengths_append_run s.trace tr L hr.scan
      simp only at ih1 ih2 ih3 ⊢
      rw [hlen, List.length_append]
      refine ⟨?_, ?_, ?_⟩
      · rw [hr.traffic]
        cases L with
        | nil => simpa using ih1
        | cons n L => simp only [List.length_cons]; simp; omega
      · rw [hr.messages, ih2]
        split <;> rename_i hL
        · simp [hL]
        · simp only [U64]; omega
      · intro hf
        rw [hr.traffic] at hf
        simp only [Bool.or_eq_false_iff, Bool.not_eq_false', List.isEmpty_iff] at hf
        rw [hr.first_time]
        simp [hf.1, hf.2, ih3 hf.1]

/-- C7. Traffic-flag invariant.  In every state reachable from the constructor
by `handleAccept`, `handleClient` and `printStats` steps, `has_traffic` is true
exactly when at least one read has been completely echoed, `total_messages` is
the number of echoed reads modulo 2^64 (so at least 1 after the first echo,
barring wraparound), and `first_message_time` is still 0 while `has_traffic` is
false.  No step turns `has_traffic` back to false or changes
`first_message_time` once it is true; a `handleClient` run that sets the flag
assigns `first_message_time` from its single `time` call, made right after the
write loop of the first echoed read, and other runs make no `time` call.
Consequently a report made after the first echo, with `now -
first_message_time >= 1`, shows `has_traffic = true`, `total_messages >= 1` and
a positive messages/sec. -/
theorem traffic_flag_invariant :
    (∀ a, Reach a →
      (a.1.has_traffic = true ↔ 1 ≤ (echoedLengths a.2.trace).length) ∧
      a.1.total_messages = (echoedLengths a.2.trace).length % U64 ∧
      (a.1.has_traffic = true → (echoedLengths a.2.trace).length < U64 →
        1 ≤ a.1.total_messages) ∧
      (a.1.has_traffic = false → a.1.first_message_time = 0)) ∧
    (∀ a b, Step a b →
      (a.1.has_traffic = true →
        b.1.has_traffic = true ∧ b.1.first_message_time = a.1.first_message_time) ∧
      (b.1.has_traffic = false → b.1.first_message_time = a.1.first_message_time)) ∧
    (∀ env fd fuel srv srv' s s', handleClient env fd fuel srv s = some (srv', s') →
      (srv.has_traffic = false → srv'.has_traffic = true →
        srv'.first_message_time = env.times s.nTime ∧ s'.nTime = s.nTime + 1) ∧
      (srv.has_traffic = true ∨ srv'.has_traffic = false → s'.nTime = s.nTime)) ∧
    (∀ env fd f srv s s2 buffer, env.reads s.nRead = ReadResult.ok buffer →
      0 < buffer.length →
      writeAll env fd buffer f 0 (s.afterRead fd (ReadResult.ok buffer)) = some (true, s2) →
      srv.has_traffic = false →
      handleClient env fd (f + 1) srv s =
        handleClient env fd f
          { srv.count buffer.length with
              first_message_time := env.times s2.nTime, has_traffic := true }
          (s2.afterTime (env.times s2.nTime))) ∧
    (∀ a now, Reach a → 1 ≤ (echoedLengths a.2.trace).length →
      (echoedLengths a.2.trace).length < U64 → now - a.1.first_message_time ≥ 1 →
      a.1.has_traffic = true ∧ 1 ≤ a.1.total_messages ∧
      ∃ mps thr, statsBlocks a.1 now =
          [StatsBlock.rates (now - a.1.start_time) (now - a.1.first_message_time)
            a.1.total_messages a.1.total_bytes mps thr] ∧
        mps = (a.1.total_messages : ℚ) / ((now - a.1.first_message_time : Int) : ℚ) ∧
        0 < mps) := by
  refine ⟨?_, ?_, ?_, ?_, ?_⟩
  · intro a ha
    obtain ⟨h1, h2, h3⟩ := reach_invariant a ha
    refine ⟨h1, h2, ?_, h3⟩
    intro ht hlt
    rw [h2, Nat.mod_eq_of_lt hlt]
    exact h1.mp ht
  · intro a b hstep
    cases hstep with
    | accept env fuel srv s s' hrun => exact ⟨fun h => ⟨h, rfl⟩, fun _ => rfl⟩
    | stats env srv s => exact ⟨fun h => ⟨h, rfl⟩, fun _ => rfl⟩
    | client env fd fuel srv srv' s s' hrun =>
      obtain ⟨tr, L, hr⟩ := handleClient_scan env fd fuel srv s srv' s' hrun
      constructor
      · intro ht
        simp only at ht ⊢
        rw [hr.traffic, hr.first_time]
        simp [ht]
      · intro hf
        simp only at hf ⊢
        rw [hr.traffic] at hf
        simp only [Bool.or_eq_false_iff, Bool.not_eq_false', List.isEmpty_iff] at hf
        rw [hr.first_time]
        simp [hf.1, hf.2]
  · intro env fd fuel srv srv' s s' hrun
    obtain ⟨tr, L, hr⟩ := handleClient_scan env fd fuel srv s srv' s' hrun
    constructor
    · intro hf ht
      rw [hr.traffic, hf] at ht
      have : L.isEmpty = false := by simpa using ht
      rw [hr.first_time, hr.time_calls]
      simp [hf, this]
    · intro h
      rw [hr.time_calls]
      rcases h with h | h
      · simp [h]
      · rw [hr.traffic] at h
        simp only [Bool.or_eq_false_iff, Bool.not_eq_false', List.isEmpty_iff] at h
        simp [h.1, h.2]
  · intro env fd f srv s s2 buffer hr h0 hwr ht
    exact handleClient_first env fd f srv s s2 buffer hr h0 hwr ht
  · intro a now ha hlen hlt hnow
    obtain ⟨h1, h2, _⟩ := reach_invariant a ha
    have ht : a.1.has_traffic = true := h1.mpr hlen
    have hm : 1 ≤ a.1.total_messages := by
      rw [h2, Nat.mod_eq_of_lt hlt]; exact hlen
    have hpos : now - a.1.first_message_time > 0 := by omega
    refine ⟨ht, hm, (a.1.total_messages : ℚ) / ((now - a.1.first_message_time : Int) : ℚ),
      (a.1.total_bytes : ℚ) / ((now - a.1.first_message_time : Int) : ℚ) / 1024, ?_, rfl, ?_⟩
    · simp [statsBlocks, ht, hpos]
    · apply div_pos
      · exact_mod_cast hm
      · exact_mod_cast hpos

/-- The traffic-flag theorem on the state reached by one echoed message: the
flag is set, one message is counted, and a report two seconds later shows half
a message per second. -/
theorem traffic_flag_invariant_witness :
    Reach (closedSrv, closedSys) ∧
    1 ≤ (echoedLengths closedSys.trace).length ∧
    (echoedLengths closedSys.trace).length < U64 ∧
    (1002 : Int) - closedSrv.first_message_time ≥ 1 ∧
    closedSrv.has_traffic = true ∧ 1 ≤ closedSrv.total_messages ∧
    ∃ mps thr, statsBlocks closedSrv 1002 =
        [StatsBlock.rates (1002 - closedSrv.start_time) (1002 - closedSrv.first_message_time)
          closedSrv.total_messages closedSrv.total_bytes mps thr] ∧
      mps = (closedSrv.total_messages : ℚ) / ((1002 - closedSrv.first_message_time : Int) : ℚ) ∧
      0 < mps :=
  have hreach : Reach (closedSrv, closedSys) :=
    Reach.step (servingSrv, servingSys) (closedSrv, closedSys)
      (Reach.init 8888 1000 3 4 servingSys (by decide))
      (Step.client closingEnv 7 5 servingSrv closedSrv servingSys closedSys (by rfl))
  have h1 : 1 ≤ (echoedLengths closedSys.trace).length := by decide
  have h2 : (echoedLengths closedSys.trace).length < U64 := by decide
  have h3 : (1002 : Int) - closedSrv.first_message_time ≥ 1 := by decide
  ⟨hreach, h1, h2, h3,
    traffic_flag_invariant.2.2.2.2 (closedSrv, closedSys) 1002 hreach h1 h2 h3⟩


/-! ## C10: the accept loop drains the pending queue -/

theorem setNonBlocking_frame (env : Env) (fd : Int) (s : Sys) :
    (setNonBlocking env fd s).2.nAccept = s.nAccept ∧
    (setNonBlocking env fd s).2.isOpen = s.isOpen ∧
    (setNonBlocking env fd s).2.registered = s.registered ∧
    (∀ fd', fd' ≠ fd → (setNonBlocking env fd s).2.nonblocking fd' = s.nonblocking fd') ∧
    ((setNonBlocking env fd s).1 ≠ -1 → (setNonBlocking env fd s).2.nonblocking fd = true) := by
  unfold setNonBlocking
  simp only
  split
  · simp [Sys.afterFcntlGet]
  · split
    · rename_i h
      refine ⟨rfl, rfl, rfl, ?_, by simp⟩
      intro fd' _
      simp only [Sys.afterFcntlSet, h, if_true]
      rfl
    · rename_i h
      refine ⟨rfl, rfl, rfl, ?_, ?_⟩
      · intro fd' hne
        simp only [Sys.afterFcntlSet, h, if_false]
        simp [Function.update_noteq hne, Sys.afterFcntlGet]
      · intro _
        simp only [Sys.afterFcntlSet, h, if_false]
        simp

theorem registerClient_spec (env : Env) (fd : Int) (s : Sys) :
    (registerClient env fd s).2.nAccept = s.nAccept ∧
    (∀ fd', fd' ≠ fd →
      (registerClient env fd s).2.isOpen fd' = s.isOpen fd' ∧
      (registerClient env fd s).2.registered fd' = s.registered fd' ∧
      (registerClient env fd s).2.nonblocking fd' = s.nonblocking fd') ∧
    ((registerClient env fd s).1 = true →
      (registerClient env fd s).2.isOpen fd = s.isOpen fd ∧
      (registerClient env fd s).2.nonblocking fd = true ∧
      (registerClient env fd s).2.registered fd = some (EPOLLIN ||| EPOLLET)) ∧
    ((registerClient env fd s).1 = false →
      (registerClient env fd s).2.isOpen fd = false ∧
      (registerClient env fd s).2.registered fd = none) ∧
    ((registerClient env fd s).1 = true ↔
      ((setNonBlocking env fd s).1 ≠ -1 ∧ env.ctls (setNonBlocking env fd s).2.nCtl ≠ -1)) := by
  obtain ⟨g1, g2, g3, g4, g5⟩ := setNonBlocking_frame env fd s
  unfold registerClient
  simp only
  split
  · rename_i h
    refine ⟨by simp [Sys.afterClose, g1], ?_, by simp, ?_, by simp [h]⟩
    · intro fd' hne
      simp [Sys.afterClose, Function.update_noteq hne, g2, g3, g4 fd' hne]
    · intro _
      simp [Sys.afterClose]
  · rename_i h
    split
    · rename_i hc
      refine ⟨by simp [Sys.afterClose, Sys.afterEpollAdd, g1], ?_, by simp, ?_, by simp [h, hc]⟩
      · intro fd' hne
        simp [Sys.afterClose, Sys.afterEpollAdd, hc, Function.update_noteq hne, g2, g3,
          g4 fd' hne]
      · intro _
        simp [Sys.afterClose]
    · rename_i hc
      refine ⟨by simp [Sys.afterEpollAdd, g1], ?_, ?_, by simp, by simp [h, hc]⟩
      · intro fd' hne
        simp [Sys.afterEpollAdd, hc, Function.update_noteq hne, g2, g3, g4 fd' hne]
      · intro _
        simp [Sys.afterEpollAdd, hc, g2, g5 h]

theorem afterAccept_frame (s : Sys) (fd errno : Int) :
    (s.afterAccept fd errno).nAccept = s.nAccept + 1 ∧
    (s.afterAccept fd errno).registered = s.registered ∧
    (∀ fd', fd' ≠ fd →
      (s.afterAccept fd errno).isOpen fd' = s.isOpen fd' ∧
      (s.afterAccept fd errno).nonblocking fd' = s.nonblocking fd') ∧
    (fd ≠ -1 → (s.afterAccept fd errno).isOpen fd = true) ∧
    (fd = -1 → (s.afterAccept fd errno).isOpen = s.isOpen ∧
      (s.afterAccept fd errno).nonblocking = s.nonblocking) := by
  refine ⟨rfl, rfl, ?_, ?_, ?_⟩
  · intro fd' hne
    by_cases h : fd = -1
    · simp [Sys.afterAccept, h]
    · simp [Sys.afterAccept, h, Function.update_noteq hne]
  · intro h
    simp [Sys.afterAccept, h]
  · intro h
    simp [Sys.afterAccept, h]

/-- The state after one successful iteration of the accept loop. -/
theorem acceptIter_nAccept (env : Env) (s : Sys) :
    (registerClient env (env.accepts s.nAccept).1
      (s.afterAccept (env.accepts s.nAccept).1 (env.accepts s.nAccept).2)).2.nAccept
      = s.nAccept + 1 := by
  rw [(registerClient_spec env _ _).1]
  rfl

theorem handleAccept_runs (env : Env) :
    ∀ (k : Nat) (s : Sys),
      (∀ i, i < k → (env.accepts (s.nAccept + i)).1 ≠ -1) →
      (env.accepts (s.nAccept + k)).1 = -1 →
      (∀ f, k + 1 ≤ f → handleAccept env f s = some (acceptFinal env k s)) ∧
      (acceptFinal env k s).nAccept = s.nAccept + k + 1 := by
  intro k
  induction k with
  | zero =>
    intro s _ hstop
    rw [Nat.add_zero] at hstop
    constructor
    · intro f hf
      obtain ⟨f', rfl⟩ : ∃ f', f = f' + 1 := ⟨f - 1, by omega⟩
      rw [handleAccept_stop env f' s hstop]
      simp [acceptFinal, hstop]
    · simp [acceptFinal, Sys.afterAccept]
  | succ k ih =>
    intro s hacc hstop
    have h0 := hacc 0 (by omega)
    rw [Nat.add_zero] at h0
    have hn := acceptIter_nAccept env s
    obtain ⟨ih1, ih2⟩ := ih
      (registerClient env (env.accepts s.nAccept).1
        (s.afterAccept (env.accepts s.nAccept).1 (env.accepts s.nAccept).2)).2
      (by
        intro i hi
        rw [hn, show s.nAccept + 1 + i = s.nAccept + (i + 1) by omega]
        exact hacc (i + 1) (by omega))
      (by
        rw [hn, show s.nAccept + 1 + k = s.nAccept + (k + 1) by omega]
        exact hstop)
    constructor
    · intro f hf
      obtain ⟨f', rfl⟩ : ∃ f', f = f' + 1 := ⟨f - 1, by omega⟩
      rw [handleAccept_next env f' s h0]
      exact ih1 f' (by omega)
    · simp only [acceptFinal]
      rw [ih2, hn]
      omega

theorem acceptLog_fds (env : Env) :
    ∀ (k : Nat) (s : Sys),
      (acceptLog env k s).map Prod.fst
        = (List.range k).map (fun i => (env.accepts (s.nAccept + i)).1) := by
  intro k
  induction k with
  | zero => intro s; rfl
  | succ k ih =>
    intro s
    simp only [acceptLog, List.map_cons, List.range_succ_eq_map, List.map_map]
    rw [ih, acceptIter_nAccept env s]
    simp only [Nat.add_zero, List.cons.injEq, true_and]
    apply List.map_congr_left
    intro i _
    simp only [Function.comp]
    rw [show s.nAccept + 1 + i = s.nAccept + (i + 1) by omega]

theorem acceptFinal_frame (env : Env) :
    ∀ (k : Nat) (s : Sys) (fd : Int),
      (env.accepts (s.nAccept + k)).1 = -1 →
      (∀ e, e ∈ acceptLog env k s → e.1 ≠ fd) →
      (acceptFinal env k s).isOpen fd = s.isOpen fd ∧
      (acceptFinal env k s).registered fd = s.registered fd ∧
      (acceptFinal env k s).nonblocking fd = s.nonblocking fd := by
  intro k
  induction k with
  | zero =>
    intro s fd hstop _
    rw [Nat.add_zero] at hstop
    obtain ⟨_, g2, _, _, g5⟩ := afterAccept_frame s (env.accepts s.nAccept).1 (env.accepts s.nAccept).2
    obtain ⟨g5a, g5b⟩ := g5 hstop
    simp only [acceptFinal]
    rw [g2, g5a, g5b]
    exact ⟨rfl, rfl, rfl⟩
  | succ k ih =>
    intro s fd hstop hlog
    have hn := acceptIter_nAccept env s
    have hne : fd ≠ (env.accepts s.nAccept).1 := by
      have := hlog ((env.accepts s.nAccept).1,
        (registerClient env (env.accepts s.nAccept).1
          (s.afterAccept (env.accepts s.nAccept).1 (env.accepts s.nAccept).2)).1)
        (by simp [acceptLog])
      exact fun h => this h.symm
    obtain ⟨i1, i2, i3⟩ := ih
      (registerClient env (env.accepts s.nAccept).1
        (s.afterAccept (env.accepts s.nAccept).1 (env.accepts s.nAccept).2)).2 fd
      (by
        rw [hn, show s.nAccept + 1 + k = s.nAccept + (k + 1) by omega]
        exact hstop)
      (by
        intro e he
        exact hlog e (by simp [acceptLog, he]))
    obtain ⟨_, r2, _⟩ := registerClient_spec env (env.accepts s.nAccept).1
      (s.afterAccept (env.accepts s.nAccept).1 (env.accepts s.nAccept).2)
    obtain ⟨r2a, r2b, r2c⟩ := r2 fd hne
    obtain ⟨_, a2, a3, _⟩ := afterAccept_frame s (env.accepts s.nAccept).1 (env.accepts s.nAccept).2
    obtain ⟨a3a, a3b⟩ := a3 fd hne
    simp only [acceptFinal]
    rw [i1, i2, i3, r2a, r2b, r2c, a2, a3a, a3b]
    exact ⟨rfl, rfl, rfl⟩

theorem acceptFinal_entries (env : Env) :
    ∀ (k : Nat) (s : Sys),
      (∀ i, i < k → (env.accepts (s.nAccept + i)).1 ≠ -1) →
      (env.accepts (s.nAccept + k)).1 = -1 →
      ∀ (i : Nat) (fd : Int) (ok : Bool), (acceptLog env k s)[i]? = some (fd, ok) →
        (∀ e, e ∈ (acceptLog env k s).drop (i + 1) → e.1 ≠ fd) →
        (ok = true → (acceptFinal env k s).isOpen fd = true ∧
          (acceptFinal env k s).nonblocking fd = true ∧
          (acceptFinal env k s).registered fd = some (EPOLLIN ||| EPOLLET)) ∧
        (ok = false → (acceptFinal env k s).isOpen fd = false ∧
          (acceptFinal env k s).registered fd = none) := by
  intro k
  induction k with
  | zero => intro s _ _ i fd ok h; simp [acceptLog] at h
  | succ k ih =>
    intro s hacc hstop i fd ok hi hlater
    have hn := acceptIter_nAccept env s
    have h0 := hacc 0 (by omega)
    rw [Nat.add_zero] at h0
    have hacc' : ∀ i, i < k →
        (env.accepts ((registerClient env (env.accepts s.nAccept).1
          (s.afterAccept (env.accepts s.nAccept).1 (env.accepts s.nAccept).2)).2.nAccept + i)).1
          ≠ -1 := by
      intro i hi
      rw [hn, show s.nAccept + 1 + i = s.nAccept + (i + 1) by omega]
      exact hacc (i + 1) (by omega)
    have hstop' : (env.accepts ((registerClient env (env.accepts s.nAccept).1
          (s.afterAccept (env.accepts s.nAccept).1 (env.accepts s.nAccept).2)).2.nAccept + k)).1
          = -1 := by
      rw [hn, show s.nAccept + 1 + k = s.nAccept + (k + 1) by omega]
      exact hstop
    cases i with
    | zero =>
      simp only [acceptLog, List.getElem?_cons_zero, Option.some.injEq, Prod.mk.injEq] at hi
      obtain ⟨hfd, hok⟩ := hi
      simp only [acceptLog, Nat.zero_add, List.drop_succ_cons, List.drop_zero] at hlater
      obtain ⟨f1, f2, f3⟩ := acceptFinal_frame env k _ fd hstop' hlater
      obtain ⟨_, _, r3, r4, _⟩ := registerClient_spec env (env.accepts s.nAccept).1
        (s.afterAccept (env.accepts s.nAccept).1 (env.accepts s.nAccept).2)
      obtain ⟨_, _, _, a4, _⟩ :=
        afterAccept_frame s (env.accepts s.nAccept).1 (env.accepts s.nAccept).2
      simp only [acceptFinal]
      rw [f1, f2, f3, ← hfd]
      constructor
      · intro h
        rw [← hok] at h
        obtain ⟨r3a, r3b, r3c⟩ := r3 h
        exact ⟨by rw [r3a]; exact a4 h0, r3b, r3c⟩
      · intro h
        rw [← hok] at h
        exact r4 h
    | succ i =>
      simp only [acceptLog, List.getElem?_cons_succ] at hi
      simp only [acceptLog, List.drop_succ_cons] at hlater
      simp only [acceptFinal]
      exact ih _ hacc' hstop' i fd ok hi hlater

theorem handleEvents_listener (env : Env) (fuel : Nat) (rest : List Int)
    (srv : EchoServer) (s s' : Sys) (h : handleAccept env fuel s = some s') :
    handleEvents env fuel (srv.listen_fd :: rest) srv s = handleEvents env fuel rest srv s' := by
  simp [handleEvents, h]

/-- C10. The accept loop drains the pending queue.  When the next `k` calls of
`accept` succeed and the one after returns `-1`, `handleAccept` returns (for
every fuel of at least `k + 1`) after exactly `k + 1` calls of `accept`,
whatever happened to the connections accepted on the way.  `acceptLog` lists
the `k` descriptors accepted, in order, with a flag that is true exactly when
`setNonBlocking` and `epoll_ctl(ADD)` both succeeded.  When the loop moves on
from an accepted descriptor, that descriptor is non-blocking and registered
with `EPOLLIN | EPOLLET` if its flag is true, and closed and unregistered if its
flag is false; it is still so when `handleAccept` returns, unless a later
`accept` of the same call handed out the same number again.  The tables of
every descriptor that was not accepted are unchanged, and the `for` loop of the
server goes on with the remaining ready descriptors. -/
theorem handleAccept_drains (env : Env) (s : Sys) (k : Nat)
    (hacc : ∀ i, i < k → (env.accepts (s.nAccept + i)).1 ≠ -1)
    (hstop : (env.accepts (s.nAccept + k)).1 = -1) :
    ∃ s', (∀ f, k + 1 ≤ f → handleAccept env f s = some s') ∧
      s'.nAccept = s.nAccept + k + 1 ∧
      (acceptLog env k s).map Prod.fst
        = (List.range k).map (fun i => (env.accepts (s.nAccept + i)).1) ∧
      (∀ (i : Nat) (fd : Int) (ok : Bool), (acceptLog env k s)[i]? = some (fd, ok) →
        (∀ e, e ∈ (acceptLog env k s).drop (i + 1) → e.1 ≠ fd) →
        (ok = true → s'.isOpen fd = true ∧ s'.nonblocking fd = true ∧
          s'.registered fd = some (EPOLLIN ||| EPOLLET)) ∧
        (ok = false → s'.isOpen fd = false ∧ s'.registered fd = none)) ∧
      (∀ fd, (∀ e, e ∈ acceptLog env k s → e.1 ≠ fd) →
        s'.isOpen fd = s.isOpen fd ∧ s'.registered fd = s.registered fd ∧
        s'.nonblocking fd = s.nonblocking fd) ∧
      (∀ fd s1, (registerClient env fd s1).1 = true ↔
        ((setNonBlocking env fd s1).1 ≠ -1 ∧
          env.ctls (setNonBlocking env fd s1).2.nCtl ≠ -1)) ∧
      (∀ fd s1,
        ((registerClient env fd s1).1 = true →
          (registerClient env fd s1).2.isOpen fd = s1.isOpen fd ∧
          (registerClient env fd s1).2.nonblocking fd = true ∧
          (registerClient env fd s1).2.registered fd = some (EPOLLIN ||| EPOLLET)) ∧
        ((registerClient env fd s1).1 = false →
          (registerClient env fd s1).2.isOpen fd = false ∧
          (registerClient env fd s1).2.registered fd = none)) ∧
      (∀ (srv : EchoServer) (rest : List Int) (f : Nat), k + 1 ≤ f →
        handleEvents env f (srv.listen_fd :: rest) srv s = handleEvents env f rest srv s') := by
  obtain ⟨hrun, hn⟩ := handleAccept_runs env k s hacc hstop
  refine ⟨acceptFinal env k s, hrun, hn, acceptLog_fds env k s,
    acceptFinal_entries env k s hacc hstop, ?_, ?_, ?_, ?_⟩
  · intro fd hfd
    exact acceptFinal_frame env k s fd hstop hfd
  · intro fd s1
    exact (registerClient_spec env fd s1).2.2.2.2
  · intro fd s1
    exact ⟨(registerClient_spec env fd s1).2.2.1, (registerClient_spec env fd s1).2.2.2.1⟩
  · intro srv rest f hf
    exact handleEvents_listener env f rest srv s _ (hrun f hf)

/-- The accept-loop theorem on `acceptEnv`, from a state with the listener 3
and the clients 7 and 8 registered: 10 and 12 end closed, 11 registered for
`EPOLLIN | EPOLLET`, and 3, 7 and 8 keep their registrations. -/
theorem handleAccept_drains_witness :
    (∀ i, i < 3 → (acceptEnv.accepts (servingSys.nAccept + i)).1 ≠ -1) ∧
    (acceptEnv.accepts (servingSys.nAccept + 3)).1 = -1 ∧
    acceptLog acceptEnv 3 servingSys = [(10, false), (11, true), (12, false)] ∧
    handleAccept acceptEnv 4 servingSys = some (acceptFinal acceptEnv 3 servingSys) ∧
    (acceptFinal acceptEnv 3 servingSys).nAccept = 4 ∧
    (acceptFinal acceptEnv 3 servingSys).isOpen 10 = false ∧
    (acceptFinal acceptEnv 3 servingSys).registered 10 = none ∧
    (acceptFinal acceptEnv 3 servingSys).isOpen 11 = true ∧
    (acceptFinal acceptEnv 3 servingSys).nonblocking 11 = true ∧
    (acceptFinal acceptEnv 3 servingSys).registered 11 = some (EPOLLIN ||| EPOLLET) ∧
    (acceptFinal acceptEnv 3 servingSys).isOpen 12 = false ∧
    (acceptFinal acceptEnv 3 servingSys).registered 12 = none ∧
    (acceptFinal acceptEnv 3 servingSys).registered 7 = servingSys.registered 7 ∧
    (acceptFinal acceptEnv 3 servingSys).registered 3 = servingSys.registered 3 := by
  have hacc : ∀ i, i < 3 → (acceptEnv.accepts (servingSys.nAccept + i)).1 ≠ -1 := by
    intro i hi
    interval_cases i <;> decide
  have hstop : (acceptEnv.accepts (servingSys.nAccept + 3)).1 = -1 := by decide
  have hlog : acceptLog acceptEnv 3 servingSys = [(10, false), (11, true), (12, false)] := by
    decide
  obtain ⟨s', hrun, hn, _, hent, hframe, _, _, _⟩ :=
    handleAccept_drains acceptEnv servingSys 3 hacc hstop
  have hs' : s' = acceptFinal acceptEnv 3 servingSys := by
    have h1 := hrun 4 (by omega)
    have h2 := (handleAccept_runs acceptEnv 3 servingSys hacc hstop).1 4 (by omega)
    rw [h1] at h2
    exact Option.some.inj h2
  subst hs'
  rw [hlog] at hent hframe
  have e0 := hent 0 10 false rfl (by decide)
  have e1 := hent 1 11 true rfl (by decide)
  have e2 := hent 2 12 false rfl (by decide)
  have f7 := hframe 7 (by decide)
  have f3 := hframe 3 (by decide)
  exact ⟨hacc, hstop, hlog, hrun 4 (by omega), hn, (e0.2 rfl).1, (e0.2 rfl).2,
    (e1.1 rfl).1, (e1.1 rfl).2.1, (e1.1 rfl).2.2, (e2.2 rfl).1, (e2.2 rfl).2, f7.2.1, f3.2.1⟩


/-! ## C8: the client's exit status -/

namespace Client

theorem sendLoop_total (env : ClientEnv) (msg_len : Nat) :
    ∀ (fuel sent : Nat) (net : Net), msg_len - sent < fuel →
      ∃ r, sendLoop env msg_len fuel sent net = some r := by
  intro fuel
  induction fuel with
  | zero => intro sent net h; omega
  | succ fuel ih =>
    intro sent net h
    unfold sendLoop
    split
    · rename_i hlt
      simp only
      split
      · exact ⟨_, rfl⟩
      · rename_i n _
        split
        · exact ⟨_, rfl⟩
        · exact ih _ _ (by omega)
    · exact ⟨_, rfl⟩

theorem recvLoop_total (env : ClientEnv) (msg_len : Nat) :
    ∀ (fuel received : Nat) (buffer : List Byte) (net : Net), msg_len - received < fuel →
      ∃ r, recvLoop env msg_len fuel received buffer net = some r := by
  intro fuel
  induction fuel with
  | zero => intro received buffer net h; omega
  | succ fuel ih =>
    intro received buffer net h
    unfold recvLoop
    split
    · rename_i hlt
      simp only
      split
      · exact ⟨_, rfl⟩
      · rename_i data _
        split
        · exact ⟨_, rfl⟩
        · exact ih _ _ _ (by omega)
    · exact ⟨_, rfl⟩

theorem sendAndReceive_total (env : ClientEnv) (message : List Byte) (c : StressClient)
    (net : Net) :
    ∃ ok latency c1 net1, sendAndReceive env message c net = some (ok, latency, c1, net1) ∧
      c1.successful_messages = c.successful_messages ∧
      c1.failed_messages = c.failed_messages := by
  obtain ⟨r1, h1⟩ := sendLoop_total env message.length (message.length + 1) 0
    { net with nClock := net.nClock + 1 } (by omega)
  unfold sendAndReceive
  simp only [h1]
  obtain ⟨o1, net1⟩ := r1
  cases o1 with
  | none => exact ⟨_, _, _, _, rfl, rfl, rfl⟩
  | some sent =>
    obtain ⟨r2, h2⟩ := recvLoop_total env message.length (message.length + 1) 0 [] net1
      (by omega)
    simp only [h2]
    obtain ⟨o2, net2⟩ := r2
    cases o2 with
    | none => exact ⟨_, _, _, _, rfl, rfl, rfl⟩
    | some rb =>
      obtain ⟨received, buffer⟩ := rb
      simp only
      split
      · exact ⟨_, _, _, _, rfl, rfl, rfl⟩
      · exact ⟨_, _, _, _, rfl, rfl, rfl⟩

theorem sendAndReceive_mismatch (env : ClientEnv) (message : List Byte) (c : StressClient)
    (net net1 net2 : Net) (sent received : Nat) (buffer : List Byte)
    (hs : sendLoop env message.length (message.length + 1) 0
      { net with nClock := net.nClock + 1 } = some (some sent, net1))
    (hr : recvLoop env message.length (message.length + 1) 0 [] net1
      = some (some (received, buffer), net2))
    (hne : buffer.take message.length ≠ message) :
    ∃ latency c1 net3, sendAndReceive env message c net = some (false, latency, c1, net3) := by
  refine ⟨env.clock net2.nClock - env.clock net.nClock,
    { c with total_bytes_sent := (c.total_bytes_sent + sent) % U64,
             total_bytes_received := (c.total_bytes_received + received) % U64 },
    { net2 with nClock := net2.nClock + 1 }, ?_⟩
  simp [sendAndReceive, hs, hr, hne]

theorem messageLoop_spec (env : ClientEnv) (message : List Byte) :
    ∀ (k : Nat) (c : StressClient) (net : Net),
      ∃ c' net', messageLoop env message k c net = some (c', net') ∧
        (outcomes env message k c net).length = k ∧
        c'.successful_messages = c.successful_messages + (outcomes env message k c net).count true ∧
        c'.failed_messages = c.failed_messages + (outcomes env message k c net).count false := by
  intro k
  induction k with
  | zero => intro c net; exact ⟨c, net, rfl, rfl, by simp [outcomes], by simp [outcomes]⟩
  | succ k ih =>
    intro c net
    obtain ⟨ok, latency, c1, net1, hsr, hs, hf⟩ := sendAndReceive_total env message c net
    obtain ⟨c', net', hrun, hlen, hsucc, hfail⟩ := ih (c1.record ok latency) net1
    refine ⟨c', net', ?_, ?_, ?_, ?_⟩
    · simp only [messageLoop, hsr]; exact hrun
    · simp only [outcomes, hsr, List.length_cons, hlen]
    · simp only [outcomes, hsr]
      rw [hsucc]
      cases ok
      · simp [StressClient.record, hs]
      · simp [StressClient.record, hs]; omega
    · simp only [outcomes, hsr]
      rw [hfail]
      cases ok
      · simp [StressClient.record, hf]; omega
      · simp [StressClient.record, hf]

theorem calculateStats_counters (c : StressClient) :
    (calculateStats c).1.successful_messages = c.successful_messages ∧
    (calculateStats c).1.failed_messages = c.failed_messages := by
  unfold calculateStats
  split <;> exact ⟨rfl, rfl⟩

theorem count_true_add_count_false (os : List Bool) :
    os.count true + os.count false = os.length := by
  induction os with
  | nil => rfl
  | cons o os ih => cases o <;> simp [List.count_cons] <;> omega

theorem count_false_eq_zero_iff (os : List Bool) :
    os.count false = 0 ↔ ∀ o, o ∈ os → o = true := by
  rw [List.count_eq_zero]
  constructor
  · intro h o ho
    cases o
    · exact absurd ho h
    · rfl
  · intro h hmem
    have := h false hmem
    cases this

theorem count_false_ne_zero_iff (os : List Bool) :
    os.count false ≠ 0 ↔ ∃ o, o ∈ os ∧ o = false := by
  rw [Ne, List.count_eq_zero, not_not]
  constructor
  · intro h; exact ⟨false, h, rfl⟩
  · rintro ⟨o, ho, rfl⟩; exact ho

/-- C8. Client exit status.  Once the connection is established, for every
script of system-call outcomes and every `message_count >= 0`, `run` returns;
all `message_count` calls of `sendAndReceive` are made; on return
`successful_messages` and `failed_messages` count the calls that returned true
and false, so their sum is `message_count`; the status is 0 when every call
returned true and 1 when some call returned false, hence 0 exactly when
`successful_messages = message_count`.  A message whose echoed bytes differ
from the bytes sent makes `sendAndReceive` return false, and the loop goes on
with the next message after counting the failure. -/
theorem run_exit_status (env : ClientEnv) (ip : String) (p size count : Int) (net : Net)
    (hconn : connectToServer env ≠ -1) (hcount : 0 ≤ count) :
    (∃ status c' net',
      run env (StressClient.new ip p size count) net = some (status, c', net') ∧
      c'.successful_messages + c'.failed_messages = count ∧
      status = (if c'.failed_messages = 0 then 0 else 1) ∧
      (status = 0 ↔ c'.successful_messages = count) ∧
      (outcomes env (makeMessage size) count.toNat (StressClient.new ip p size count)
        { net with nClock := net.nClock + 1 }).length = count.toNat ∧
      c'.successful_messages =
        (outcomes env (makeMessage size) count.toNat (StressClient.new ip p size count)
          { net with nClock := net.nClock + 1 }).count true ∧
      c'.failed_messages =
        (outcomes env (makeMessage size) count.toNat (StressClient.new ip p size count)
          { net with nClock := net.nClock + 1 }).count false ∧
      (status = 0 ↔ ∀ o, o ∈ outcomes env (makeMessage size) count.toNat
          (StressClient.new ip p size count) { net with nClock := net.nClock + 1 } → o = true) ∧
      (status = 1 ↔ ∃ o, o ∈ outcomes env (makeMessage size) count.toNat
          (StressClient.new ip p size count) { net with nClock := net.nClock + 1 } ∧ o = false)) ∧
    (∀ (message : List Byte) (c : StressClient) (n0 n1 n2 : Net) (sent received : Nat)
        (buffer : List Byte) (k : Nat),
      sendLoop env message.length (message.length + 1) 0 { n0 with nClock := n0.nClock + 1 }
        = some (some sent, n1) →
      recvLoop env message.length (message.length + 1) 0 [] n1
        = some (some (received, buffer), n2) →
      buffer.take message.length ≠ message →
      ∃ latency c1 n3, sendAndReceive env message c n0 = some (false, latency, c1, n3) ∧
        messageLoop env message (k + 1) c n0 =
          messageLoop env message k
            { c1 with failed_messages := c1.failed_messages + 1 } n3) := by
  constructor
  · obtain ⟨c1, net1, hloop, hlen, hsucc, hfail⟩ :=
      messageLoop_spec env (makeMessage size) count.toNat (StressClient.new ip p size count)
        { net with nClock := net.nClock + 1 }
    obtain ⟨hcs, hcf⟩ := calculateStats_counters c1
    have hsum := count_true_add_count_false
      (outcomes env (makeMessage size) count.toNat (StressClient.new ip p size count)
        { net with nClock := net.nClock + 1 })
    have hall := count_false_eq_zero_iff
      (outcomes env (makeMessage size) count.toNat (StressClient.new ip p size count)
        { net with nClock := net.nClock + 1 })
    have hmc : (StressClient.new ip p size count).message_count = count := rfl
    have hms : (StressClient.new ip p size count).message_size = size := rfl
    have hs0 : (StressClient.new ip p size count).successful_messages = 0 := rfl
    have hf0 : (StressClient.new ip p size count).failed_messages = 0 := rfl
    rw [hs0, Int.zero_add] at hsucc
    rw [hf0, Int.zero_add] at hfail
    rw [hlen] at hsum
    have htoNat : (count.toNat : Int) = count := Int.toNat_of_nonneg hcount
    refine ⟨if (calculateStats c1).1.failed_messages = 0 then 0 else 1, (calculateStats c1).1,
      { net1 with nClock := net1.nClock + 1 }, ?_, ?_, rfl, ?_, hlen, ?_, ?_, ?_, ?_⟩
    · simp only [run, hconn, if_false, hmc, hms, hloop]
    · rw [hcs, hcf, hsucc, hfail]; omega
    · rw [hcs, hcf, hsucc, hfail]
      split <;> omega
    · rw [hcs, hsucc]
    · rw [hcf, hfail]
    · rw [hcf, hfail, ← hall]
      split <;> omega
    · rw [hcf, hfail]
      have hex := count_false_ne_zero_iff
        (outcomes env (makeMessage size) count.toNat (StressClient.new ip p size count)
          { net with nClock := net.nClock + 1 })
      rw [← hex]
      split <;> omega
  · intro message c n0 n1 n2 sent received buffer k hs hr hne
    obtain ⟨latency, c1, n3, hsr⟩ :=
      sendAndReceive_mismatch env message c n0 n1 n2 sent received buffer hs hr hne
    refine ⟨latency, c1, n3, hsr, ?_⟩
    simp [messageLoop, hsr, StressClient.record]

/-- The exit-status theorem against a server that corrupts the second and third
of three 4-byte messages: one success, two failures, status 1, and all three
messages attempted. -/
theorem run_exit_status_witness :
    connectToServer corruptingEnv ≠ -1 ∧ (0 : Int) ≤ 3 ∧
    (run corruptingEnv (StressClient.new "127.0.0.1" 8888 4 3) ⟨0, 0, 0⟩).map
      (fun r => (r.1, r.2.1.successful_messages, r.2.1.failed_messages)) = some (1, 1, 2) ∧
    outcomes corruptingEnv (makeMessage 4) 3 (StressClient.new "127.0.0.1" 8888 4 3) ⟨0, 0, 1⟩
      = [true, false, false] ∧
    (∃ status c' net',
      run corruptingEnv (StressClient.new "127.0.0.1" 8888 4 3) ⟨0, 0, 0⟩
        = some (status, c', net') ∧
      c'.successful_messages + c'.failed_messages = 3 ∧
      status = (if c'.failed_messages = 0 then 0 else 1) ∧
      (status = 0 ↔ c'.successful_messages = 3)) := by
  have hconn : connectToServer corruptingEnv ≠ -1 := by decide
  have hcount : (0 : Int) ≤ 3 := by decide
  obtain ⟨status, c', net', h1, h2, h3, h4, _⟩ :=
    (run_exit_status corruptingEnv "127.0.0.1" 8888 4 3 ⟨0, 0, 0⟩ hconn hcount).1
  exact ⟨hconn, hcount, by decide, by decide, status, c', net', h1, h2, h3, h4⟩

end Client

/-! ## C9: the client's arguments -/

namespace Client

theorem parseArgs_help (atoi : String → Int) (more : List String) (cfg : Config) :
    parseArgs atoi ("-?" :: more) cfg = (cfg, some (MainOutcome.exit 0 [Output.usage])) := by
  cases more with
  | nil => simp [parseArgs]
  | cons v rest =>
    have h1 : ("-?" : String) ≠ "-h" := by decide
    have h2 : ("-?" : String) ≠ "-p" := by decide
    have h3 : ("-?" : String) ≠ "-s" := by decide
    have h4 : ("-?" : String) ≠ "-n" := by decide
    simp [parseArgs, h1, h2, h3, h4]

theorem parseArgs_unknown (atoi : String → Int) (a : String) (more : List String) (cfg : Config)
    (ha : a ≠ "-?") (hu : isValueFlag a = false ∨ more = []) :
    parseArgs atoi (a :: more) cfg
      = (cfg, some (MainOutcome.exit 1 [Output.unknownOption a, Output.usage])) := by
  cases more with
  | nil => simp [parseArgs, ha]
  | cons v rest =>
    have hv : isValueFlag a = false := by
      rcases hu with h | h
      · exact h
      · cases h
    simp only [isValueFlag, Bool.decide_or, Bool.or_eq_false_iff, decide_eq_false_iff_not] at hv
    obtain ⟨h1, h2, h3, h4⟩ := hv
    simp [parseArgs, ha, h1, h2, h3, h4]

theorem parseArgs_pair (atoi : String → Int) (fv : String × String) (rest : List String)
    (cfg : Config) (h : isValueFlag fv.1 = true) :
    parseArgs atoi (fv.1 :: fv.2 :: rest) cfg = parseArgs atoi rest (applyFlag atoi cfg fv) := by
  simp only [isValueFlag, Bool.decide_or, Bool.or_eq_true, decide_eq_true_eq] at h
  by_cases h1 : fv.1 = "-h"
  · simp [parseArgs, applyFlag, h1]
  · by_cases h2 : fv.1 = "-p"
    · simp [parseArgs, applyFlag, h1, h2]
    · by_cases h3 : fv.1 = "-s"
      · simp [parseArgs, applyFlag, h1, h2, h3]
      · have h4 : fv.1 = "-n" := by
          rcases h with h | h | h | h
          · exact absurd h h1
          · exact absurd h h2
          · exact absurd h h3
          · exact h
        simp [parseArgs, applyFlag, h1, h2, h3, h4]

theorem parseArgs_pairs (atoi : String → Int) :
    ∀ (ps : List (String × String)) (rest : List String) (cfg : Config),
      (∀ fv, fv ∈ ps → isValueFlag fv.1 = true) →
      parseArgs atoi (flatten ps ++ rest) cfg
        = parseArgs atoi rest (ps.foldl (applyFlag atoi) cfg) := by
  intro ps
  induction ps with
  | nil => intro rest cfg _; rfl
  | cons fv ps ih =>
    intro rest cfg h
    obtain ⟨f, v⟩ := fv
    simp only [flatten, List.cons_append, List.foldl_cons]
    rw [parseArgs_pair atoi (f, v) _ cfg (h (f, v) (by simp))]
    exact ih rest _ (fun fv' hfv => h fv' (by simp [hfv]))

theorem args_shape :
    ∀ (n : Nat) (args : List String), args.length ≤ n →
      ∃ ps, (∀ fv, fv ∈ ps → isValueFlag fv.1 = true) ∧
        (args = flatten ps ∨
          ∃ a more, args = flatten ps ++ a :: more ∧
            (a = "-?" ∨ isValueFlag a = false ∨ more = [])) := by
  intro n
  induction n with
  | zero =>
    intro args h
    have : args = [] := List.length_eq_zero.mp (by omega)
    exact ⟨[], by simp, Or.inl (by simp [this, flatten])⟩
  | succ n ih =>
    intro args h
    match args, h with
    | [], _ => exact ⟨[], by simp, Or.inl rfl⟩
    | [a], _ => exact ⟨[], by simp, Or.inr ⟨a, [], rfl, Or.inr (Or.inr rfl)⟩⟩
    | a :: v :: rest, h =>
      cases hv : isValueFlag a with
      | false => exact ⟨[], by simp, Or.inr ⟨a, v :: rest, rfl, Or.inr (Or.inl hv)⟩⟩
      | true =>
        obtain ⟨ps, hps, hshape⟩ := ih rest (by simp only [List.length_cons] at h; omega)
        refine ⟨(a, v) :: ps, ?_, ?_⟩
        · intro fv hfv
          simp only [List.mem_cons] at hfv
          rcases hfv with rfl | hfv
          · exact hv
          · exact hps fv hfv
        · rcases hshape with rfl | ⟨b, more, rfl, hb⟩
          · exact Or.inl rfl
          · exact Or.inr ⟨b, more, rfl, hb⟩

/-- C9 as stated fails on argument lists that combine its cases: with
`-p 0 -?` the supplied port is outside [1, 65535] and yet `main` prints the
usage text and returns 0; with `-? --bogus` an unknown option appears and
`main` returns 0; with `--bogus -?` the help option appears and `main`
returns 1; and `-h -?` takes `-?` as the host name and builds the client. -/
theorem main_first_decider_wins :
    main atoi ["stress_client", "-p", "0", "-?"] = MainOutcome.exit 0 [Output.usage] ∧
    main atoi ["stress_client", "-?", "--bogus"] = MainOutcome.exit 0 [Output.usage] ∧
    main atoi ["stress_client", "--bogus", "-?"]
      = MainOutcome.exit 1 [Output.unknownOption "--bogus", Output.usage] ∧
    main atoi ["stress_client", "-h", "-?"]
      = MainOutcome.run { Config.default with server_ip := "-?" } := by
  refine ⟨by decide, by decide, by decide, by decide⟩

/-- C9, amended. `main` reads its arguments from left to right, an option
among `-h -p -s -n` taking the next argument as its value (read with `atoi` for
the three numeric ones).  Every argument list is a sequence `ps` of such pairs,
followed by nothing or by a first argument `a` that is `-?`, is not one of the
four options, or is one of them in last position.  When nothing follows, the
configuration is the defaults updated by the pairs in order, and `main`
prints an error and returns 1 if the port is outside [1, 65535], or the size is
outside [1, 4096], or the count is not positive, and builds the client
otherwise.  When `a` is `-?`, `main` prints the usage text and returns 0; when
`a` is anything else, it prints an error and the usage text and returns 1.  In
all these exits no client is constructed.  With no argument the client is built
with host 127.0.0.1, port 8888, size 1024 and count 10000. -/
theorem main_validation (atoi : String → Int) (prog : String)
    (ps : List (String × String)) (hps : ∀ fv, fv ∈ ps → isValueFlag fv.1 = true) :
    main atoi (prog :: flatten ps) = validate (ps.foldl (applyFlag atoi) Config.default) ∧
    (∀ cfg : Config,
      (cfg.port < 1 ∨ 65535 < cfg.port ∨ cfg.message_size < 1 ∨ 4096 < cfg.message_size ∨
        cfg.message_count ≤ 0) →
      ∃ out, validate cfg = MainOutcome.exit 1 [out] ∧
        (out = Output.invalidPort ∨ out = Output.invalidSize ∨ out = Output.invalidCount)) ∧
    (∀ cfg : Config, 1 ≤ cfg.port → cfg.port ≤ 65535 → 1 ≤ cfg.message_size →
      cfg.message_size ≤ 4096 → 0 < cfg.message_count → validate cfg = MainOutcome.run cfg) ∧
    (∀ more, main atoi (prog :: (flatten ps ++ "-?" :: more))
      = MainOutcome.exit 0 [Output.usage]) ∧
    (∀ a more, a ≠ "-?" → (isValueFlag a = false ∨ more = []) →
      main atoi (prog :: (flatten ps ++ a :: more))
        = MainOutcome.exit 1 [Output.unknownOption a, Output.usage]) ∧
    main atoi [prog] = MainOutcome.run
      { server_ip := "127.0.0.1", port := 8888, message_size := 1024, message_count := 10000 } ∧
    (∀ args : List String, ∃ ps', (∀ fv, fv ∈ ps' → isValueFlag fv.1 = true) ∧
      (args = flatten ps' ∨
        ∃ a more, args = flatten ps' ++ a :: more ∧
          (a = "-?" ∨ isValueFlag a = false ∨ more = []))) := by
  refine ⟨?_, ?_, ?_, ?_, ?_, ?_, ?_⟩
  · have := parseArgs_pairs atoi ps [] Config.default hps
    rw [List.append_nil] at this
    simp only [main, List.tail_cons, this, parseArgs, validate]
  · intro cfg h
    unfold validate
    split
    · exact ⟨_, rfl, Or.inl rfl⟩
    · split
      · exact ⟨_, rfl, Or.inr (Or.inl rfl)⟩
      · split
        · exact ⟨_, rfl, Or.inr (Or.inr rfl)⟩
        · rename_i h1 h2 h3
          simp only [BUFFER_SIZE] at h2
          exfalso
          omega
  · intro cfg h1 h2 h3 h4 h5
    have g1 : ¬ (cfg.port ≤ 0 ∨ cfg.port > 65535) := by omega
    have g2 : ¬ (cfg.message_size ≤ 0 ∨ cfg.message_size > (BUFFER_SIZE : Int)) := by
      simp only [BUFFER_SIZE]; omega
    have g3 : ¬ cfg.message_count ≤ 0 := by omega
    simp only [validate, g1, g2, g3, if_false]
  · intro more
    simp only [main, List.tail_cons, parseArgs_pairs atoi ps _ Config.default hps,
      parseArgs_help]
  · intro a more ha hu
    simp only [main, List.tail_cons, parseArgs_pairs atoi ps _ Config.default hps,
      parseArgs_unknown atoi a more _ ha hu]
  · simp [main, parseArgs, Config.default, DEFAULT_PORT, DEFAULT_MESSAGE_SIZE,
      DEFAULT_MESSAGE_COUNT, BUFFER_SIZE]
  · intro args
    exact args_shape args.length args (Nat.le_refl _)

/-- The amended theorem with the standard `atoi` on `-p 9000 -s 0`: both
arguments are consumed, the size 0 is rejected with status 1; followed by `-?`
the same arguments print the usage text and return 0. -/
theorem main_validation_witness :
    (∀ fv, fv ∈ [("-p", "9000"), ("-s", "0")] → isValueFlag fv.1 = true) ∧
    main atoi ["stress_client", "-p", "9000", "-s", "0"]
      = MainOutcome.exit 1 [Output.invalidSize] ∧
    main atoi ["stress_client", "-p", "9000", "-s", "0", "-?"]
      = MainOutcome.exit 0 [Output.usage] ∧
    main atoi ["stress_client", "-p", "9000", "-s", "0", "-n"]
      = MainOutcome.exit 1 [Output.unknownOption "-n", Output.usage] := by
  have hps : ∀ fv, fv ∈ [("-p", "9000"), ("-s", "0")] → isValueFlag fv.1 = true := by
    intro fv hfv
    simp only [List.mem_cons, List.mem_singleton, List.not_mem_nil, or_false] at hfv
    rcases hfv with rfl | rfl <;> decide
  have h := main_validation atoi "stress_client" [("-p", "9000"), ("-s", "0")] hps
  refine ⟨hps, ?_, ?_, ?_⟩
  · have := h.1
    simp only [flatten] at this
    rw [this]
    decide
  · exact h.2.2.2.1 []
  · exact h.2.2.2.2.1 "-n" [] (by decide) (Or.inr rfl)

end Client


/-! ## C11: the percentile lookups of `calculateStats` -/

namespace Client

theorem sendAndReceive_latencies (env : ClientEnv) (message : List Byte) (c c1 : StressClient)
    (net net1 : Net) (ok : Bool) (latency : Int)
    (h : sendAndReceive env message c net = some (ok, latency, c1, net1)) :
    c1.latencies = c.latencies := by
  unfold sendAndReceive at h
  simp only at h
  split at h
  · cases h
  · injection h with h
    simp only [Prod.mk.injEq] at h
    rw [← h.2.2.1]
  · split at h
    · cases h
    · injection h with h
      simp only [Prod.mk.injEq] at h
      rw [← h.2.2.1]
    · split at h
      · injection h with h
        simp only [Prod.mk.injEq] at h
        rw [← h.2.2.1]
      · injection h with h
        simp only [Prod.mk.injEq] at h
        rw [← h.2.2.1]

theorem record_latencies (c : StressClient) (ok : Bool) (latency : Int)
    (h : (c.latencies.length : Int) = c.successful_messages) :
    ((c.record ok latency).latencies.length : Int) = (c.record ok latency).successful_messages := by
  cases ok
  · simpa [StressClient.record] using h
  · simp only [StressClient.record, if_true, List.length_append, List.length_singleton]
    omega

theorem messageLoop_latencies (env : ClientEnv) (message : List Byte) :
    ∀ (k : Nat) (c : StressClient) (net : Net) (c' : StressClient) (net' : Net),
      messageLoop env message k c net = some (c', net') →
      (c.latencies.length : Int) = c.successful_messages →
      (c'.latencies.length : Int) = c'.successful_messages := by
  intro k
  induction k with
  | zero =>
    intro c net c' net' h hinv
    simp only [messageLoop, Option.some.injEq, Prod.mk.injEq] at h
    rw [← h.1]
    exact hinv
  | succ k ih =>
    intro c net c' net' h hinv
    obtain ⟨ok, latency, c1, net1, hsr, hs, _⟩ := sendAndReceive_total env message c net
    have hl := sendAndReceive_latencies env message c c1 net net1 ok latency hsr
    simp only [messageLoop, hsr] at h
    exact ih _ _ _ _ h (record_latencies c1 ok latency (by rw [hl, hs]; exact hinv))

theorem sorted_get_le (l : List Int) (hs : l.Sorted (fun a b => a ≤ b)) (i j : Nat)
    (hij : i ≤ j) (hj : j < l.length) :
    l.get ⟨i, Nat.lt_of_le_of_lt hij hj⟩ ≤ l.get ⟨j, hj⟩ :=
  hs.rel_get_of_le (Fin.mk_le_mk.mpr hij)

theorem getElem?_eq_some_get (l : List Int) (i : Nat) (h : i < l.length) :
    l[i]? = some (l.get ⟨i, h⟩) := by
  rw [List.getElem?_eq_getElem h]
  rfl

theorem percentile_indices (n : Nat) (hn : 1 ≤ n) :
    n * 50 / 100 < n ∧ n * 95 / 100 < n ∧ n * 99 / 100 < n ∧
    n * 50 / 100 ≤ n * 95 / 100 ∧ n * 95 / 100 ≤ n * 99 / 100 ∧ n * 99 / 100 ≤ n - 1 := by
  refine ⟨?_, ?_, ?_, ?_, ?_, ?_⟩ <;> omega

/-- C11. Percentile lookups are in bounds and ordered.  For every size
`n >= 1` the indices `n*50/100`, `n*95/100` and `n*99/100` are below `n` (and
increasing).  The loop of `run`, started from the constructor's state, always
returns with `latencies.size() = successful_messages`, at most `message_count`
entries, and (for a count that fits an `int`) index products that stay below
2^64; `run` then hands that state to `calculateStats`.  `calculateStats` leaves
`latencies` alone when `successful_messages <= 0`.  When `successful_messages >
0` and the list has that many entries, it sorts the list ascending (a
permutation of the old one), all five reads (`front()`, `back()` and the three
percentiles) are in bounds, and `Min <= P50 <= P95 <= P99 <= Max`. -/
theorem calculateStats_percentiles (env : ClientEnv) (ip : String) (p size count : Int)
    (net : Net) (c : StressClient) :
    (∀ n : Nat, 1 ≤ n →
      n * 50 / 100 < n ∧ n * 95 / 100 < n ∧ n * 99 / 100 < n ∧
      n * 50 / 100 ≤ n * 95 / 100 ∧ n * 95 / 100 ≤ n * 99 / 100) ∧
    (∃ c1 net1,
      messageLoop env (makeMessage size) count.toNat (StressClient.new ip p size count)
        { net with nClock := net.nClock + 1 } = some (c1, net1) ∧
      (c1.latencies.length : Int) = c1.successful_messages ∧
      c1.latencies.length ≤ count.toNat ∧
      (count ≤ 2147483647 → c1.latencies.length * 99 < U64) ∧
      (connectToServer env ≠ -1 → ∃ status net2,
        run env (StressClient.new ip p size count) net
          = some (status, (calculateStats c1).1, net2))) ∧
    (c.successful_messages ≤ 0 → calculateStats c = (c, none)) ∧
    ((c.latencies.length : Int) = c.successful_messages → 0 < c.successful_messages →
      ∃ mn p50 p95 p99 mx,
        calculateStats c =
          ({ c with latencies := c.latencies.insertionSort (fun a b => a ≤ b) },
            some { min := some mn, max := some mx, p50 := some p50, p95 := some p95,
                   p99 := some p99 }) ∧
        (c.latencies.insertionSort (fun a b => a ≤ b)).Sorted (fun a b => a ≤ b) ∧
        (c.latencies.insertionSort (fun a b => a ≤ b)).Perm c.latencies ∧
        mn ≤ p50 ∧ p50 ≤ p95 ∧ p95 ≤ p99 ∧ p99 ≤ mx) := by
  refine ⟨?_, ?_, ?_, ?_⟩
  · intro n hn
    obtain ⟨h1, h2, h3, h4, h5, _⟩ := percentile_indices n hn
    exact ⟨h1, h2, h3, h4, h5⟩
  · obtain ⟨c1, net1, hloop, hlen, hsucc, _⟩ :=
      messageLoop_spec env (makeMessage size) count.toNat (StressClient.new ip p size count)
        { net with nClock := net.nClock + 1 }
    have hinv := messageLoop_latencies env (makeMessage size) count.toNat
      (StressClient.new ip p size count) { net with nClock := net.nClock + 1 } c1 net1 hloop rfl
    have hs0 : (StressClient.new ip p size count).successful_messages = 0 := rfl
    rw [hs0, Int.zero_add] at hsucc
    have hle : c1.latencies.length ≤ count.toNat := by
      have hcl := List.count_le_length true
        (outcomes env (makeMessage size) count.toNat (StressClient.new ip p size count)
          { net with nClock := net.nClock + 1 })
      rw [hlen] at hcl
      omega
    refine ⟨c1, net1, hloop, hinv, hle, ?_, ?_⟩
    · intro hc
      simp only [U64]
      omega
    · intro hconn
      have hmc : (StressClient.new ip p size count).message_count = count := rfl
      have hms : (StressClient.new ip p size count).message_size = size := rfl
      exact ⟨if (calculateStats c1).1.failed_messages = 0 then 0 else 1,
        { net1 with nClock := net1.nClock + 1 },
        by simp only [run, hconn, if_false, hmc, hms, hloop]⟩
  · intro h
    have : ¬ c.successful_messages > 0 := by omega
    simp [calculateStats, this]
  · intro hlen hpos
    have hsort := List.sorted_insertionSort (fun a b : Int => a ≤ b) c.latencies
    have hperm := List.perm_insertionSort (fun a b : Int => a ≤ b) c.latencies
    have hn : (c.latencies.insertionSort (fun a b => a ≤ b)).length = c.latencies.length :=
      List.length_insertionSort (fun a b : Int => a ≤ b) c.latencies
    have hn1 : 1 ≤ (c.latencies.insertionSort (fun a b => a ≤ b)).length := by omega
    obtain ⟨b50, b95, b99, o1, o2, o3⟩ := percentile_indices _ hn1
    have b0 : 0 < (c.latencies.insertionSort (fun a b => a ≤ b)).length := by omega
    have bl : (c.latencies.insertionSort (fun a b => a ≤ b)).length - 1
        < (c.latencies.insertionSort (fun a b => a ≤ b)).length := by omega
    refine ⟨(c.latencies.insertionSort (fun a b => a ≤ b)).get ⟨0, b0⟩,
      (c.latencies.insertionSort (fun a b => a ≤ b)).get ⟨_, b50⟩,
      (c.latencies.insertionSort (fun a b => a ≤ b)).get ⟨_, b95⟩,
      (c.latencies.insertionSort (fun a b => a ≤ b)).get ⟨_, b99⟩,
      (c.latencies.insertionSort (fun a b => a ≤ b)).get ⟨_, bl⟩, ?_, hsort, hperm,
      sorted_get_le _ hsort _ _ (Nat.zero_le _) b50,
      sorted_get_le _ hsort _ _ o1 b95,
      sorted_get_le _ hsort _ _ o2 b99,
      sorted_get_le _ hsort _ _ o3 bl⟩
    simp only [calculateStats, hpos, if_true, List.head?_eq_getElem?, List.getLast?_eq_getElem?,
      getElem?_eq_some_get _ _ b0, getElem?_eq_some_get _ _ b50, getElem?_eq_some_get _ _ b95,
      getElem?_eq_some_get _ _ b99, getElem?_eq_some_get _ _ bl]

/-- The percentile theorem on a run of five messages taking 500, 200, 900, 100
and 700 ticks: the loop ends with five latencies for five successes, and the
report reads Min 100, P50 500, P95 900, P99 900, Max 900 from the sorted
list. -/
theorem calculateStats_percentiles_witness :
    messageLoop jitterEnv (makeMessage 4) 5 jitterClient ⟨0, 0, 1⟩
      = some (jitterDone, ⟨5, 5, 11⟩) ∧
    (jitterDone.latencies.length : Int) = jitterDone.successful_messages ∧
    0 < jitterDone.successful_messages ∧
    calculateStats jitterDone =
      ({ jitterDone with latencies := [100, 200, 500, 700, 900] },
        some { min := some 100, max := some 900, p50 := some 500, p95 := some 900,
               p99 := some 900 }) ∧
    (∃ mn p50 p95 p99 mx,
      calculateStats jitterDone =
        ({ jitterDone with
            latencies := jitterDone.latencies.insertionSort (fun a b => a ≤ b) },
          some { min := some mn, max := some mx, p50 := some p50, p95 := some p95,
                 p99 := some p99 }) ∧
      (jitterDone.latencies.insertionSort (fun a b => a ≤ b)).Sorted (fun a b => a ≤ b) ∧
      (jitterDone.latencies.insertionSort (fun a b => a ≤ b)).Perm jitterDone.latencies ∧
      mn ≤ p50 ∧ p50 ≤ p95 ∧ p95 ≤ p99 ∧ p99 ≤ mx) :=
  have hlen : (jitterDone.latencies.length : Int) = jitterDone.successful_messages := by decide
  have hpos : 0 < jitterDone.successful_messages := by decide
  ⟨by decide, hlen, hpos, by decide,
    (calculateStats_percentiles jitterEnv "127.0.0.1" 8888 4 5 ⟨0, 0, 0⟩ jitterDone).2.2.2
      hlen hpos⟩

end Client

end Echo
